import Mathlib

set_option maxRecDepth 8000

/-!
Shallow embedding of the Cypress Network Mock Recorder (TypeScript).

Sources embedded below:
- `cypress/support/matcher.ts`   — URL normalization, signatures, storage keys, matching
- `cypress/support/sanitizer.ts` — header/URL/body sanitization, dynamic placeholders
- `cypress/support/mockStorage.ts` — save/load/preload and the in-memory cache
- `cypress/support/networkRecorder.ts` — record/replay interception handlers
- `cypress/config/mock.config.ts` — configuration record and defaults
- `cypress.config.ts` — the `readMock`/`writeMock`/... node tasks

Modelling conventions:
- JS strings are Lean `String`s; all concrete inputs used in theorems are ASCII,
  where JS UTF-16 code units, Unicode code points and bytes coincide.
- JS `Record<string, T>` objects are insertion-ordered association lists with
  unique keys; property assignment updates in place, new keys are appended.
- `JSON`-typed values (`unknown` in the sources) are the inductive `JsonVal`.
- Host-platform functions the code calls (`new URL`, `URLSearchParams`,
  `Array.prototype.sort`, `String.prototype.replace`, 32-bit `<<`/`&`) are
  embedded per their specified semantics (WHATWG URL / ECMAScript), restricted
  to the ASCII fragment exercised here; each is commented at its definition site.
- Effects (Cypress tasks, the filesystem) are explicit parameters: the
  filesystem is a function `String → Option String`, `JSON.parse` a function
  `String → Option RecordedMock` (`none` = the parse throws), the regex test
  of `shouldRecordUrl` an oracle `String → String → Bool`.
-/

/-! ### JavaScript primitives -/

/-- ECMAScript ToInt32: wrap an exact integer to the signed 32-bit range.
Models the implicit conversions of `hash << 5` and `hash & hash` in
`simpleHash` (matcher.ts).  All intermediate values there are small enough
to be exact IEEE doubles, so plain `Int` arithmetic plus this wrap is exact. -/
def toInt32 (n : Int) : Int := (n + 2 ^ 31) % 2 ^ 32 - 2 ^ 31

/-- JS `String.prototype.toUpperCase`, ASCII fragment (`Char.toUpper` maps
`a`-`z` to `A`-`Z` and leaves everything else fixed, as JS does on ASCII). -/
def jsUpper (s : String) : String := String.mk (s.data.map Char.toUpper)

/-- JS `String.prototype.toLowerCase`, ASCII fragment. -/
def jsLower (s : String) : String := String.mk (s.data.map Char.toLower)

/-- Digit character for `Number.prototype.toString(36)`: `0`-`9` then `a`-`z`. -/
def base36Char (n : Nat) : Char := if n < 10 then Char.ofNat (48 + n) else Char.ofNat (87 + n)

/-- Big-endian base-36 digits of `n` prepended to `acc`; `fuel`-structured so
that it evaluates by kernel reduction (`fuel ≥ n` always suffices since each
step at least halves `n`). -/
def toBase36Aux : Nat → Nat → List Char → List Char
  | 0, _, acc => acc
  | _, 0, acc => acc
  | fuel + 1, n + 1, acc =>
    toBase36Aux fuel ((n + 1) / 36) (base36Char ((n + 1) % 36) :: acc)

/-- JS `Math.abs(n).toString(36)` for an integer: base-36 rendering, `"0"` for 0. -/
def toBase36 (n : Nat) : String := if n = 0 then "0" else String.mk (toBase36Aux n n [])

/-- ECMAScript `GetSubstitution` on a replacement template, for a search with
no capture groups (the case of a *string* search pattern, and of the literal
regex built by `escapeRegex`): `$$` yields `$`, `$&` the matched text, `$`
followed by U+0060 (grave accent) the part of the original string before the
match, `$` followed by U+0027 (apostrophe) the part after it; every other
`$` (a digit with no corresponding capture, `$<` with no named captures, a
trailing `$`) is copied literally, exactly as the spec leaves it. -/
def getSubstitution (matched before after : List Char) : List Char → List Char
  | [] => []
  | [c] => [c]
  | c :: d :: rest2 =>
    if c = Char.ofNat 36 then
      if d = Char.ofNat 36 then Char.ofNat 36 :: getSubstitution matched before after rest2
      else if d = Char.ofNat 38 then matched ++ getSubstitution matched before after rest2
      else if d = Char.ofNat 96 then before ++ getSubstitution matched before after rest2
      else if d = Char.ofNat 39 then after ++ getSubstitution matched before after rest2
      else c :: d :: getSubstitution matched before after rest2
    else c :: getSubstitution matched before after (d :: rest2)

/-- Replace every occurrence of `pat` in a character list by the
`GetSubstitution`-processed `rep`, scanning left to right without rescanning
replacements: the semantics of JS `s.replace(new RegExp(escapeRegex(pat),
'g'), rep)`.  `acc` holds the already-scanned characters in reverse, so the
`$`-escapes see the text around each match in the *original* string.  An
empty `pat` matches at every position, as the empty regex does. -/
def listReplaceAllGo (pat rep : List Char) : Nat → List Char → List Char → List Char
  | _, acc, [] => if pat.isEmpty then getSubstitution pat acc.reverse [] rep else []
  | 0, _, l => l
  | fuel + 1, acc, c :: rest =>
    if pat.isEmpty then
      getSubstitution pat acc.reverse (c :: rest) rep ++
        c :: listReplaceAllGo pat rep fuel (c :: acc) rest
    else if pat.isPrefixOf (c :: rest) then
      getSubstitution pat acc.reverse ((c :: rest).drop pat.length) rep ++
        listReplaceAllGo pat rep fuel (pat.reverse ++ acc) ((c :: rest).drop pat.length)
    else c :: listReplaceAllGo pat rep fuel (c :: acc) rest

/-- Entry point: the fuel `l.length` can never run out, as every step
consumes at least one character. -/
def listReplaceAll (pat rep : List Char) (l : List Char) : List Char :=
  listReplaceAllGo pat rep l.length [] l

/-- Replace the first occurrence of `pat` by the `GetSubstitution`-processed
`rep`: the semantics of JS `s.replace(pat, rep)` with a *string* pattern
(used by `resolveDynamicPlaceholders`), which replaces only the first match.
`acc` holds the already-scanned characters in reverse. -/
def listReplaceFirstAux (pat rep : List Char) : List Char → List Char → List Char
  | acc, [] => if pat.isEmpty then getSubstitution pat acc.reverse [] rep else []
  | acc, c :: rest =>
    if pat.isPrefixOf (c :: rest) then
      getSubstitution pat acc.reverse ((c :: rest).drop pat.length) rep ++
        (c :: rest).drop pat.length
    else c :: listReplaceFirstAux pat rep (c :: acc) rest

/-- Entry point: no characters scanned yet. -/
def listReplaceFirst (pat rep s : List Char) : List Char :=
  listReplaceFirstAux pat rep [] s

/-- String wrapper for `listReplaceAll`. -/
def jsReplaceAll (s pat rep : String) : String := String.mk (listReplaceAll pat.data rep.data s.data)

/-- String wrapper for `listReplaceFirst`. -/
def jsReplaceFirst (s pat rep : String) : String := String.mk (listReplaceFirst pat.data rep.data s.data)

/-- JS `s.includes(pat)`. -/
def jsIncludes (s pat : String) : Bool := decide (pat.data <:+: s.data)

/-- Uppercase hex digit (for percent-encoding). -/
def hexDigit (n : Nat) : Char := if n < 10 then Char.ofNat (48 + n) else Char.ofNat (55 + n)

/-- Percent-encode one byte (chars here are ≤ 0xFF; ASCII in all theorems). -/
def percentByte (c : Char) : List Char := ['%', hexDigit (c.toNat / 16 % 16), hexDigit (c.toNat % 16)]

/-- Numeric value of a hex digit, if it is one. -/
def hexVal (c : Char) : Option Nat :=
  if 48 ≤ c.toNat ∧ c.toNat ≤ 57 then some (c.toNat - 48)
  else if 65 ≤ c.toNat ∧ c.toNat ≤ 70 then some (c.toNat - 55)
  else if 97 ≤ c.toNat ∧ c.toNat ≤ 102 then some (c.toNat - 87)
  else none

/-- Percent-decode: `%XY` with two hex digits becomes the byte `0xXY`; anything
else is copied verbatim (the WHATWG behavior; bytes map 1:1 to chars here). -/
def percentDecode : List Char → List Char
  | [] => []
  | c :: c1 :: c2 :: rest2 =>
    if c = '%' then
      match hexVal c1, hexVal c2 with
      | some h1, some h2 => Char.ofNat (16 * h1 + h2) :: percentDecode rest2
      | _, _ => '%' :: percentDecode (c1 :: c2 :: rest2)
    else c :: percentDecode (c1 :: c2 :: rest2)
  | c :: rest => c :: percentDecode rest

/-- Characters serialized verbatim by the `application/x-www-form-urlencoded`
serializer: ASCII alphanumerics and `*`, `-`, `.`, `_`. -/
def formSafe (c : Char) : Bool :=
  c.isAlphanum || c = '*' || c = '-' || c = '.' || c = '_'

/-- `application/x-www-form-urlencoded` serialization of one string
(space becomes `+`, unsafe bytes are percent-encoded). -/
def formEncode (s : String) : String :=
  String.mk (s.data.flatMap fun c =>
    if formSafe c then [c] else if c = ' ' then ['+'] else percentByte c)

/-- `application/x-www-form-urlencoded` decoding of one token
(`+` becomes space, then percent-decode). -/
def formDecode (s : String) : String :=
  String.mk (percentDecode (s.data.map fun c => if c = '+' then ' ' else c))

/-- JS `s.startsWith(pre)` (on code units; 1:1 with chars here). -/
def jsStartsWith (s pre : String) : Bool := pre.data.isPrefixOf s.data

/-- Split a character list at every occurrence of `sep` (delimiters dropped;
`n+1` parts for `n` separators, so the empty list yields `[[]]`). -/
def splitOnSep (sep : Char) : List Char → List (List Char)
  | [] => [[]]
  | c :: rest =>
    if c = sep then [] :: splitOnSep sep rest
    else
      match splitOnSep sep rest with
      | s :: ss => (c :: s) :: ss
      | [] => [[c]]

/-- Split at the first occurrence of `c`: `(before, after?)`, delimiter dropped. -/
def splitFirst (l : List Char) (c : Char) : List Char × Option (List Char) :=
  match l with
  | [] => ([], none)
  | x :: rest =>
    if x = c then ([], some rest)
    else
      let r := splitFirst rest c
      (x :: r.1, r.2)

/-- Split one `name=value` token at its first `=` (no `=` ⇒ empty value), then
form-decode both sides — one step of the `URLSearchParams` parser. -/
def parseFormPair (seg : List Char) : String × String :=
  let (name, rest) := splitFirst seg '='
  (formDecode (String.mk name), formDecode (String.mk (rest.getD [])))

/-- The `URLSearchParams(init)` parser: strip one leading `?`, split on `&`,
skip empty tokens, split each at its first `=`, form-decode names and values. -/
def parseForm (s : String) : List (String × String) :=
  let l := if jsStartsWith s "?" then s.data.drop 1 else s.data
  ((splitOnSep '&' l).filter (fun seg => seg ≠ [])).map parseFormPair

/-- Join parts with a separator (inverse of `splitOnSep` on clean input). -/
def joinSep (sep : Char) : List (List Char) → List Char
  | [] => []
  | [s] => s
  | s :: rest => s ++ sep :: joinSep sep rest

/-- The `URLSearchParams.toString()` serializer. -/
def serializeForm (l : List (String × String)) : String :=
  String.mk (joinSep '&' (l.map fun p => (formEncode p.1).data ++ '=' :: (formEncode p.2).data))

/-- `URLSearchParams.has(name)`. -/
def spHas (l : List (String × String)) (name : String) : Bool := l.any (fun p => p.1 = name)

/-- `URLSearchParams.set(name, value)`: update the first pair named `name` in
place and drop the other pairs with that name; append if absent. -/
def spSet (l : List (String × String)) (name value : String) : List (String × String) :=
  match l with
  | [] => [(name, value)]
  | (k, v) :: rest =>
    if k = name then (k, value) :: rest.filter (fun p => p.1 ≠ name)
    else (k, v) :: spSet rest name value

/-- JS object property assignment `rec[k] = v` on an insertion-ordered record:
update in place if the key exists, else append. -/
def recordSet (rec : List (String × String)) (k v : String) : List (String × String) :=
  match rec with
  | [] => [(k, v)]
  | (k', v') :: rest => if k' = k then (k', v) :: rest else (k', v') :: recordSet rest k v

/-- JS property read `rec[k]` (first — and with unique keys, only — binding). -/
def recordGet (rec : List (String × String)) (k : String) : Option String :=
  match rec with
  | [] => none
  | (k', v) :: rest => if k' = k then some v else recordGet rest k

/-- Lexicographic "less or equal" on character lists by code points — the
order the default ECMAScript sort comparator induces via `<` on strings
(UTF-16 code units; identical to code points on the ASCII fragment used
throughout). -/
def charListLe : List Char → List Char → Bool
  | [], _ => true
  | _ :: _, [] => false
  | a :: as, b :: bs => if a = b then charListLe as bs else decide (a < b)

/-- The induced `≤` on strings. -/
def strLe (a b : String) : Prop := charListLe a.data b.data = true

instance : DecidableRel strLe := fun a b => inferInstanceAs (Decidable (_ = true))

theorem charListLe_total : ∀ a b : List Char, charListLe a b = true ∨ charListLe b a = true := by
  intro a
  induction a with
  | nil => intro b; left; rfl
  | cons x as ih =>
    intro b
    cases b with
    | nil => right; rfl
    | cons y bs =>
      by_cases hxy : x = y
      · subst hxy
        rcases ih bs with h | h
        · left; simpa [charListLe] using h
        · right; simpa [charListLe] using h
      · rcases lt_or_gt_of_ne (show x ≠ y from hxy) with h | h
        · left; simp [charListLe, hxy, h]
        · right
          simp [charListLe, Ne.symm hxy]
          exact h

theorem charListLe_trans : ∀ a b c : List Char,
    charListLe a b = true → charListLe b c = true → charListLe a c = true := by
  intro a
  induction a with
  | nil => intro b c _ _; rfl
  | cons x as ih =>
    intro b c hab hbc
    cases b with
    | nil => simp [charListLe] at hab
    | cons y bs =>
      cases c with
      | nil => simp [charListLe] at hbc
      | cons z cs =>
        by_cases hxy : x = y <;> by_cases hyz : y = z
        · subst hxy; subst hyz
          simp only [charListLe, if_pos rfl] at hab hbc ⊢
          exact ih bs cs hab hbc
        · subst hxy
          simp only [charListLe, if_neg hyz] at hbc ⊢
          exact hbc
        · subst hyz
          simp only [charListLe, if_neg hxy] at hab ⊢
          exact hab
        · simp only [charListLe, if_neg hxy] at hab
          simp only [charListLe, if_neg hyz] at hbc
          have hxz : x < z := lt_trans (of_decide_eq_true hab) (of_decide_eq_true hbc)
          simp [charListLe, ne_of_lt hxz, hxz]

theorem charListLe_antisymm : ∀ a b : List Char,
    charListLe a b = true → charListLe b a = true → a = b := by
  intro a
  induction a with
  | nil =>
    intro b _ hba
    cases b with
    | nil => rfl
    | cons y bs => simp [charListLe] at hba
  | cons x as ih =>
    intro b hab hba
    cases b with
    | nil => simp [charListLe] at hab
    | cons y bs =>
      by_cases hxy : x = y
      · subst hxy
        simp only [charListLe, if_pos rfl] at hab hba
        rw [ih bs hab hba]
      · simp only [charListLe, if_neg hxy] at hab
        simp only [charListLe, if_neg (Ne.symm hxy)] at hba
        exact absurd (lt_trans (of_decide_eq_true hab) (of_decide_eq_true hba)) (lt_irrefl x)

instance : IsTotal String strLe := ⟨fun a b => charListLe_total a.data b.data⟩

instance : IsTrans String strLe := ⟨fun a b c => charListLe_trans a.data b.data c.data⟩

/-- The string the default `Array.prototype.sort` comparator compares for a
two-element entry array `[k, v]`: `String([k, v])` is `k + "," + v`. -/
def entryKeyStr (p : String × String) : String := p.1 ++ "," ++ p.2

/-- Comparator relation of the default JS sort on `URLSearchParams` entries. -/
def entryLe (p q : String × String) : Prop := strLe (entryKeyStr p) (entryKeyStr q)

instance : DecidableRel entryLe := fun p q => inferInstanceAs (Decidable (_ = true))

instance : IsTotal (String × String) entryLe :=
  ⟨fun p q => charListLe_total (entryKeyStr p).data (entryKeyStr q).data⟩

instance : IsTrans (String × String) entryLe :=
  ⟨fun p q r h1 h2 => charListLe_trans (entryKeyStr p).data (entryKeyStr q).data
    (entryKeyStr r).data h1 h2⟩

/-- `[...params.entries()].sort()`: ECMAScript sort is stable (ES2019) and the
default comparator orders entries by `String(entry)`; a stable insertion sort
with that comparator produces the same list as any stable sort. -/
def jsSortEntries (l : List (String × String)) : List (String × String) :=
  List.insertionSort entryLe l

/-- `Object.keys(rec).sort()` on string keys: stable sort, code-unit order. -/
def jsSortKeys (l : List String) : List String :=
  List.insertionSort strLe l

/-! ### WHATWG URL model

The repository always constructs URLs as
`new URL(url, url.startsWith('http') ? '' : 'http://localhost')`.
Per the WHATWG URL Standard, when a base string is supplied it is parsed
*first* and a failure throws: the empty string is not a parsable URL, so for
every input beginning with `"http"` the constructor throws a `TypeError`
regardless of the input itself.  For all other inputs the URL is parsed
relative to the valid base `http://localhost`.  Only that relative fragment
needs a real parser here. -/

structure UrlObj where
  /-- Serialized host (plus `:port` when non-default). -/
  host : String
  /-- Serialized path, always beginning with `/` for these special URLs. -/
  pathname : String
  /-- Percent-encoded query, without the leading `?`; `none` if absent. -/
  query : Option String
  deriving Repr, DecidableEq

/-- `url.origin` for the http scheme. -/
def UrlObj.origin (u : UrlObj) : String := "http://" ++ u.host

/-- `url.search`: empty when the query is absent or empty, else `?` + query. -/
def UrlObj.search (u : UrlObj) : String :=
  match u.query with
  | none => ""
  | some q => if q = "" then "" else "?" ++ q

/-- `url.searchParams` (as a pair list, in order). -/
def UrlObj.searchParams (u : UrlObj) : List (String × String) :=
  parseForm (u.query.getD "")

/-- Characters percent-encoded in a path segment (WHATWG path percent-encode
set): C0 controls, DEL and above, space, `"`, `#`, `<`, `>`, `?`, backtick,
and both braces. -/
def pathEncodeChar (c : Char) : List Char :=
  if c.toNat <= 0x1F || c.toNat >= 0x7F || c = ' ' || c = '"' || c = '#' || c = '<' ||
      c = '>' || c = '?' || c.toNat = 0x60 || c.toNat = 0x7B || c.toNat = 0x7D then
    percentByte c
  else [c]

/-- Characters percent-encoded in the query of a special URL (WHATWG query
percent-encode set plus the apostrophe): C0 controls, DEL and above, space,
`"`, `#`, `<`, `>`, apostrophe. -/
def queryEncodeChar (c : Char) : List Char :=
  if c.toNat <= 0x1F || c.toNat >= 0x7F || c = ' ' || c = '"' || c = '#' || c = '<' ||
      c = '>' || c.toNat = 0x27 then
    percentByte c
  else [c]

/-- Percent-encode a whole path segment. -/
def pathSegEncode (seg : List Char) : List Char := seg.flatMap pathEncodeChar

/-- Percent-encode a raw query. -/
def queryEncode (q : List Char) : List Char := q.flatMap queryEncodeChar

/-- WHATWG input preprocessing: strip leading/trailing C0 controls and spaces,
remove every ASCII tab and newline. -/
def stripControls (l : List Char) : List Char :=
  let l := l.filter (fun c => c.toNat != 9 && c.toNat != 10 && c.toNat != 13)
  ((l.dropWhile (fun c => c.toNat <= 0x20)).reverse.dropWhile
    (fun c => c.toNat <= 0x20)).reverse

/-- WHATWG path-state dot-segment handling over the split segments; the last
segment is the EOF-terminated one (a trailing `.`/`..` leaves a trailing
empty segment, i.e. a trailing slash). -/
def procSegs : List (List Char) → List (List Char) → List (List Char)
  | [], acc => acc.reverse
  | [last], acc =>
    if last = ['.', '.'] then (acc.drop 1).reverse ++ [[]]
    else if last = ['.'] then acc.reverse ++ [[]]
    else acc.reverse ++ [last]
  | seg :: rest, acc =>
    if seg = ['.', '.'] then procSegs rest (acc.drop 1)
    else if seg = ['.'] then procSegs rest acc
    else procSegs rest (seg :: acc)

/-- Resolve a relative path (backslashes already normalized, one leading
slash already dropped) to a serialized absolute path. -/
def resolvePath (pathPart : List Char) : String :=
  let segs := (splitOnSep '/' pathPart).map pathSegEncode
  String.mk ('/' :: joinSep '/' (procSegs segs []))

/-- Valid host characters in this fragment of the host parser (covers domain
hosts; anything stranger is treated as a parse failure, conservatively for the
inputs this development exercises). -/
def hostCharOk (c : Char) : Bool :=
  c.isAlphanum || c = '.' || c = '-' || c = '_'

/-- Parse `hostport` (text between `//` and the next `/`, `\`, `?` or `#`).
Returns the serialized host, or `none` for a parse failure (empty host,
bad port, bad character).  The default port 80 is elided on serialization. -/
def parseHostPort (hp : List Char) : Option String :=
  let (hostRaw, portRaw) := splitFirst hp ':'
  let host := String.mk (hostRaw.map Char.toLower)
  if hostRaw = [] then none
  else if ¬ (hostRaw.all (fun c => hostCharOk c)) then none
  else
    match portRaw with
    | none => some host
    | some [] => some host
    | some ds =>
      if ds.all Char.isDigit then
        let n := ds.foldl (fun n c => n * 10 + (c.toNat - 48)) 0
        if n = 80 then some host
        else if n <= 65535 then some (host ++ ":" ++ toString n) else none
      else none

/-- Parse an input (not beginning with `"http"`) relative to the base
`http://localhost`, per the WHATWG basic URL parser restricted to the
fragment described above.  `none` models a thrown `TypeError`. -/
def parseRelative (input : String) : Option UrlObj :=
  let s := stripControls input.data
  if s.take 2 = ['/', '/'] then
    -- protocol-relative: authority, then path/query
    let rest := s.drop 2
    let hostEnd := rest.takeWhile (fun c => c ≠ '/' ∧ c ≠ '\\' ∧ c ≠ '?' ∧ c ≠ '#')
    let after := rest.drop hostEnd.length
    match parseHostPort hostEnd with
    | none => none
    | some host =>
      let (beforeFrag, _) := splitFirst after '#'
      let (rawPath, rawQuery) := splitFirst beforeFrag '?'
      let path := rawPath.map (fun c => if c = '\\' then '/' else c)
      let pathPart := if path.head? = some '/' then path.drop 1 else path
      some { host := host, pathname := resolvePath pathPart,
             query := rawQuery.map (fun q => String.mk (queryEncode q)) }
  else
    let (beforeFrag, _) := splitFirst s '#'
    let (rawPath, rawQuery) := splitFirst beforeFrag '?'
    let path := rawPath.map (fun c => if c = '\\' then '/' else c)
    let pathPart := if path.head? = some '/' then path.drop 1 else path
    some { host := "localhost", pathname := resolvePath pathPart,
           query := rawQuery.map (fun q => String.mk (queryEncode q)) }

/-- `new URL(url, url.startsWith('http') ? '' : 'http://localhost')` as used
throughout `matcher.ts` and `sanitizer.ts`; `none` models a thrown
`TypeError`.  For inputs beginning with `"http"` the base is the empty
string, and parsing an empty base fails before the input is even considered
(WHATWG URL constructor, step "parse base ... on failure throw"), so the
constructor always throws for them. -/
def jsNewURL (url : String) : Option UrlObj :=
  if jsStartsWith url "http" then none else parseRelative url

/-! ### matcher.ts -/

structure RequestSignature where
  method : String
  url : String
  normalizedUrl : String
  queryParams : List (String × String)
  pathname : String
  deriving Repr, DecidableEq

structure MockMetadata where
  method : String
  url : String
  pathname : String
  queryParams : Option (List (String × String))
  deriving Repr, DecidableEq

/-- `normalizeUrl` (matcher.ts:26-47): sort the query parameters and
reconstruct the URL; on a constructor throw, return the input unchanged. -/
def normalizeUrl (url : String) : String :=
  match jsNewURL url with
  | none => url
  | some urlObj =>
    let params := parseForm urlObj.search
    let sortedParams := jsSortEntries params
    let normalizedSearch := serializeForm sortedParams
    let search := if normalizedSearch ≠ "" then "?" ++ normalizedSearch else ""
    if jsStartsWith url "http" then urlObj.origin ++ urlObj.pathname ++ search
    else urlObj.pathname ++ search

/-- `extractPathname` (matcher.ts:52-60); the catch branch is
`url.split('?')[0]`. -/
def extractPathname (url : String) : String :=
  match jsNewURL url with
  | some urlObj => urlObj.pathname
  | none => String.mk (splitFirst url.data '?').1

/-- `extractQueryParams` (matcher.ts:65-77): `searchParams.forEach` into a
fresh record (later values of a repeated key overwrite earlier ones). -/
def extractQueryParams (url : String) : List (String × String) :=
  match jsNewURL url with
  | some urlObj => urlObj.searchParams.foldl (fun params p => recordSet params p.1 p.2) []
  | none => []

/-- `createRequestSignature` (matcher.ts:82-90). -/
def createRequestSignature (method url : String) : RequestSignature :=
  { method := jsUpper method
    url := url
    normalizedUrl := normalizeUrl url
    queryParams := extractQueryParams url
    pathname := extractPathname url }

/-- `simpleHash` (matcher.ts:139-147): the classic `(h << 5) - h + c` 32-bit
rolling hash, then `Math.abs(h).toString(36).substring(0, 6)`. -/
def simpleHash (str : String) : String :=
  let hash := str.data.foldl (fun hash c => toInt32 (toInt32 (hash * 32) - hash + c.toNat)) 0
  String.mk ((toBase36 hash.natAbs).data.take 6)

/-- `generateMockFilename` (matcher.ts:95-116). -/
def generateMockFilename (signature : RequestSignature) : String :=
  let p1 := if jsStartsWith signature.pathname "/" then signature.pathname.data.drop 1
            else signature.pathname.data
  let p2 := String.mk (p1.map (fun c => if c = '/' then '_' else c))
  let p3 := String.mk (p2.data.filter (fun c => c.isAlphanum || c = '_' || c = '-'))
  let cleanPath := if p3 = "" then "root" else p3
  let queryString := String.mk (joinSep '&'
    ((jsSortKeys (signature.queryParams.map Prod.fst)).map
      (fun k => k.data ++ '=' :: ((recordGet signature.queryParams k).getD "undefined").data)))
  let cleanPath := if queryString ≠ "" then cleanPath ++ "_" ++ simpleHash queryString
                   else cleanPath
  jsLower signature.method ++ "_" ++ cleanPath ++ ".json"

/-! ### mock.config.ts -/

structure MockConfig where
  mockDir : String
  includePatterns : List String
  excludePatterns : List String
  sanitizeHeaders : List String
  autoFallback : Bool
  logLevel : String
  simulateLatency : Bool
  dynamicPlaceholder : String
  deriving Repr, DecidableEq

/-- `defaultConfig` (mock.config.ts:32-66).  The braces of the placeholder
sentinel are escaped byte-for-byte. -/
def defaultConfig : MockConfig :=
  { mockDir := "cypress/mocks"
    includePatterns := ["^/api/", "^https?://.*/(api|graphql|v[0-9]+)/"]
    excludePatterns := ["\\.(js|css|png|jpg|jpeg|gif|svg|woff|woff2|ttf|ico)$",
                        "^/static/", "^/assets/", "^/_next/", "^/__cypress/"]
    sanitizeHeaders := ["authorization", "cookie", "set-cookie", "x-auth-token",
                        "x-api-key", "x-access-token", "x-csrf-token", "x-xsrf-token"]
    autoFallback := true
    logLevel := "info"
    simulateLatency := false
    dynamicPlaceholder := "\x7b\x7bDYNAMIC\x7d\x7d" }

/-- `generateMockPath` (matcher.ts:121-134): group under the first two
non-numeric pathname segments (IDs filtered out), default directory `api`. -/
def generateMockPath (config : MockConfig) (signature : RequestSignature) : String :=
  let filename := generateMockFilename signature
  let pathSegments := (((splitOnSep '/' signature.pathname.data).map String.mk).filter
    (fun s => s ≠ "" && ¬ s.data.all Char.isDigit)).take 2
  let joined := String.mk (joinSep '/' (pathSegments.map String.data))
  let subDir := if joined = "" then "api" else joined
  config.mockDir ++ "/" ++ subDir ++ "/" ++ filename

/-- `shouldRecordUrl` (matcher.ts:152-171).  `regexTest pattern url` is the
oracle for `new RegExp(pattern, 'i').test(url)` — the case-insensitive regex
test is host-library behavior, abstracted as a parameter. -/
def shouldRecordUrl (regexTest : String → String → Bool) (config : MockConfig)
    (url : String) : Bool :=
  if config.excludePatterns.any (fun pattern => regexTest pattern url) then false
  else if config.includePatterns.any (fun pattern => regexTest pattern url) then true
  else true

/-- `matchRequest` (matcher.ts:176-200). -/
def matchRequest (request : RequestSignature) (mock : MockMetadata) : Bool :=
  if jsUpper request.method ≠ jsUpper mock.method then false
  else if request.pathname ≠ mock.pathname then false
  else
    match mock.queryParams with
    | some qp =>
      if qp.length > 0 then
        qp.all (fun kv => recordGet request.queryParams kv.1 = some kv.2)
      else true
    | none => true

/-! ### sanitizer.ts -/

/-- JSON-like values (`unknown` in the TS sources). -/
inductive JsonVal where
  | str : String → JsonVal
  | num : Int → JsonVal
  | bool : Bool → JsonVal
  | null : JsonVal
  | arr : List JsonVal → JsonVal
  | obj : List (String × JsonVal) → JsonVal
  deriving Repr

structure SanitizeOptions where
  sanitizeHeaders : Bool
  sanitizeCookies : Bool
  sanitizePII : Bool
  maskAuthValues : Bool
  deriving Repr, DecidableEq

/-- `defaultSanitizeOptions` (sanitizer.ts:14-19): PII scrubbing off by default. -/
def defaultSanitizeOptions : SanitizeOptions :=
  { sanitizeHeaders := true, sanitizeCookies := true, sanitizePII := false,
    maskAuthValues := true }

/-- `sanitizeHeaders` (sanitizer.ts:24-57): build a fresh record; headers in
the configured list (name comparison on lowercased names) are masked with
`***REMOVED***` (or dropped when not masking); cookie headers are masked
unconditionally when cookie sanitization is on; all else copies through. -/
def sanitizeHeaders (config : MockConfig) (options : SanitizeOptions)
    (headers : List (String × String)) : List (String × String) :=
  if ¬ options.sanitizeHeaders then headers
  else
    headers.foldl (fun sanitized kv =>
      let lowerKey := jsLower kv.1
      if config.sanitizeHeaders.any (fun h => lowerKey = jsLower h) then
        if options.maskAuthValues then recordSet sanitized kv.1 "***REMOVED***"
        else sanitized
      else if options.sanitizeCookies ∧ (lowerKey = "cookie" ∨ lowerKey = "set-cookie") then
        recordSet sanitized kv.1 "***REMOVED***"
      else recordSet sanitized kv.1 kv.2) []

/-- `sanitizeBody` (sanitizer.ts:62-87): recursive walk; with PII disabled
(the default) every branch returns its input.  `piiClean` abstracts the
string-level regex pipeline `sanitizeString` (regex replacement is host
behavior; no claim here enables it). -/
def sanitizeBody (piiClean : String → String) (options : SanitizeOptions) :
    JsonVal → JsonVal
  | .str s => if options.sanitizePII then .str (piiClean s) else .str s
  | .arr xs =>
    if options.sanitizePII then .arr (xs.attach.map fun x => sanitizeBody piiClean options x.1)
    else .arr xs
  | .obj kvs =>
    if options.sanitizePII then
      .obj (kvs.attach.map fun kv => (kv.1.1, sanitizeBody piiClean options kv.1.2))
    else .obj kvs
  | v => v
decreasing_by
  · calc sizeOf x.1 < sizeOf xs := List.sizeOf_lt_of_mem x.2
      _ < sizeOf (JsonVal.arr xs) := by simp
  · calc sizeOf kv.1.2 < sizeOf kv.1 := by cases kv.1 with | mk a b => simp
      _ < sizeOf kvs := List.sizeOf_lt_of_mem kv.2
      _ < sizeOf (JsonVal.obj kvs) := by simp

/-- The sensitive query parameter names of `sanitizeUrl` (sanitizer.ts:106-116). -/
def sensitiveParams : List String :=
  ["token", "access_token", "api_key", "apikey", "auth", "key", "secret",
   "password", "pwd"]

/-- `sanitizeUrl` (sanitizer.ts:105-135): for each sensitive name present in
`searchParams`, `set` it to `***REMOVED***`.  Mutating `searchParams`
re-serializes the URL's query in `application/x-www-form-urlencoded` form; if
no `set` happens the original (percent-encoded) query is kept.  On a
constructor throw, the input is returned unchanged.  (For inputs beginning
with `"http"` the constructor always throws — empty base — so the
`url.toString()` branch is unreachable; it is still embedded.) -/
def sanitizeUrl (url : String) : String :=
  match jsNewURL url with
  | none => url
  | some urlObj =>
    let params0 := urlObj.searchParams
    let params := sensitiveParams.foldl
      (fun ps param => if spHas ps param then spSet ps param "***REMOVED***" else ps) params0
    let dirty := sensitiveParams.any (fun param => spHas params0 param)
    let searchStr :=
      if dirty then
        let q := serializeForm params
        if q = "" then "" else "?" ++ q
      else urlObj.search
    if jsStartsWith url "http" then urlObj.origin ++ urlObj.pathname ++ searchStr
    else urlObj.pathname ++ searchStr

/-- The `\x7b\x7bfield\x7d\x7d` token written by `applyDynamicPlaceholders`. -/
def dynToken (field : String) : String := "\x7b\x7b" ++ field ++ "\x7d\x7d"

/-- Entry computed by the object branch of `applyDynamicPlaceholders` for a
*string* field value: `patterns.find(p => p.field === key)` decides between
the placeholder sentinel (strict equality with the tracked value) and the
ordinary string pass (inlined from the string branch, to which the recursive
call on a string value reduces). -/
def applyStrEntry (config : MockConfig) (patterns : List (String × String))
    (k s : String) : JsonVal :=
  match patterns.find? (fun p => p.1 = k) with
  | some p =>
    if s = p.2 then JsonVal.str config.dynamicPlaceholder
    else .str (patterns.foldl (fun result p =>
      if jsIncludes s p.2 then jsReplaceAll result p.2 (dynToken p.1) else result) s)
  | none =>
    .str (patterns.foldl (fun result p =>
      if jsIncludes s p.2 then jsReplaceAll result p.2 (dynToken p.1) else result) s)

mutual

/-- `applyDynamicPlaceholders` (sanitizer.ts:140-175).  Strings: every
occurrence of a tracked value is replaced by its token (`escapeRegex` makes
the `'g'` regex a literal-string matcher, which `jsReplaceAll` embeds; the
`includes` guard tests the *original* string while replacement accumulates).
Objects: a field whose value strictly equals its tracked value becomes the
placeholder sentinel. -/
def applyDynamicPlaceholders (config : MockConfig) (patterns : List (String × String)) :
    JsonVal → JsonVal
  | .str data =>
    .str (patterns.foldl (fun result p =>
      if jsIncludes data p.2 then jsReplaceAll result p.2 (dynToken p.1) else result) data)
  | .arr xs => .arr (applyDynList config patterns xs)
  | .obj kvs => .obj (applyDynObj config patterns kvs)
  | .num n => .num n
  | .bool b => .bool b
  | .null => .null

/-- Array branch of `applyDynamicPlaceholders`. -/
def applyDynList (config : MockConfig) (patterns : List (String × String)) :
    List JsonVal → List JsonVal
  | [] => []
  | x :: rest => applyDynamicPlaceholders config patterns x :: applyDynList config patterns rest

/-- Object branch of `applyDynamicPlaceholders` (`patterns.find(p => p.field
=== key)`, strict value equality — only possible for string values, so the
lookup is consulted exactly for string entries, via `applyStrEntry`). -/
def applyDynObj (config : MockConfig) (patterns : List (String × String)) :
    List (String × JsonVal) → List (String × JsonVal)
  | [] => []
  | (k, v) :: rest =>
    let entry :=
      match v with
      | .str s => applyStrEntry config patterns k s
      | v' => applyDynamicPlaceholders config patterns v'
    (k, entry) :: applyDynObj config patterns rest

end

mutual

/-- `resolveDynamicPlaceholders` (sanitizer.ts:180-215).  Strings: the bare
sentinel resolves through `values['_default'] ?? data`; otherwise each
`\x7b\x7bkey\x7d\x7d` token is replaced by `String(value)` — with a *string*
pattern, so only the first occurrence (`jsReplaceFirst`).  Values are
modelled as strings (the round-trip use case), making `String(value)` the
identity. -/
def resolveDynamicPlaceholders (config : MockConfig) (values : List (String × String)) :
    JsonVal → JsonVal
  | .str data =>
    if data = config.dynamicPlaceholder then
      match recordGet values "_default" with
      | some v => .str v
      | none => .str data
    else
      .str (values.foldl (fun result kv =>
        jsReplaceFirst result (dynToken kv.1) kv.2) data)
  | .arr xs => .arr (resolveDynList config values xs)
  | .obj kvs => .obj (resolveDynObj config values kvs)
  | .num n => .num n
  | .bool b => .bool b
  | .null => .null

/-- Array branch of `resolveDynamicPlaceholders`. -/
def resolveDynList (config : MockConfig) (values : List (String × String)) :
    List JsonVal → List JsonVal
  | [] => []
  | x :: rest => resolveDynamicPlaceholders config values x :: resolveDynList config values rest

/-- Object branch of `resolveDynamicPlaceholders` (`value ===
config.dynamicPlaceholder && key in values` picks `values[key]`). -/
def resolveDynObj (config : MockConfig) (values : List (String × String)) :
    List (String × JsonVal) → List (String × JsonVal)
  | [] => []
  | (k, v) :: rest =>
    let entry :=
      match v with
      | .str s =>
        if s = config.dynamicPlaceholder ∧ (recordGet values k).isSome then
          JsonVal.str ((recordGet values k).getD s)
        else resolveDynamicPlaceholders config values (.str s)
      | v' => resolveDynamicPlaceholders config values v'
    (k, entry) :: resolveDynObj config values rest

end

/-- JS truthiness on JSON values (for the `data.x ? ... : undefined` guards
of `sanitizeRecordedData`). -/
def jsFalsy : JsonVal → Bool
  | .null => true
  | .str s => s = ""
  | .num n => n = 0
  | .bool b => ¬ b
  | _ => false

structure RecordedData where
  url : String
  requestHeaders : Option (List (String × String))
  responseHeaders : Option (List (String × String))
  requestBody : Option JsonVal
  responseBody : Option JsonVal

/-- `sanitizeRecordedData` (sanitizer.ts:448-473): the full pipeline — URL,
both header directions, both bodies — in one transformation.  The falsy
guards (`data.requestBody ? ... : undefined`) drop falsy bodies. -/
def sanitizeRecordedData (config : MockConfig) (piiClean : String → String)
    (options : SanitizeOptions) (data : RecordedData) : RecordedData :=
  { url := sanitizeUrl data.url
    requestHeaders := data.requestHeaders.map (sanitizeHeaders config options)
    responseHeaders := data.responseHeaders.map (sanitizeHeaders config options)
    requestBody :=
      match data.requestBody with
      | some b => if jsFalsy b then none else some (sanitizeBody piiClean options b)
      | none => none
    responseBody :=
      match data.responseBody with
      | some b => if jsFalsy b then none else some (sanitizeBody piiClean options b)
      | none => none }

/-! ### mockStorage.ts and the cypress.config.ts tasks -/

structure RecordedMock where
  method : String
  url : String
  pathname : String
  queryParams : List (String × String)
  status : Nat
  statusMessage : Option String
  requestHeaders : Option (List (String × String))
  responseHeaders : Option (List (String × String))
  requestBody : Option JsonVal
  response : JsonVal
  responseTime : Option Nat
  recordedAt : String
  version : Option String
  metadata : Option (List (String × JsonVal))
  deriving Repr

/-- The in-memory `mockCache` (a JS `Map`, insertion-ordered, unique keys). -/
def MockCache := List (String × RecordedMock)

/-- JS `Map.get`. -/
def mapGet (cache : MockCache) (k : String) : Option RecordedMock :=
  match cache with
  | [] => none
  | (k', v) :: rest => if k' = k then some v else mapGet rest k

/-- JS `Map.set`: update in place if the key exists, else append. -/
def mapSet (cache : MockCache) (k : String) (v : RecordedMock) : MockCache :=
  match cache with
  | [] => [(k, v)]
  | (k', v') :: rest =>
    if k' = k then (k', v) :: rest else (k', v') :: mapSet rest k v

/-- JS `Map.size`. -/
def mapSize (cache : MockCache) : Nat := List.length cache

/-- Request half of a `saveMock` call (networkRecorder passes `req.method`,
`req.url`, sanitized `req.headers`, `req.body`). -/
structure SaveRequest where
  method : String
  url : String
  headers : Option (List (String × String))
  body : Option JsonVal

/-- Response half of a `saveMock` call. -/
structure SaveResponse where
  statusCode : Nat
  statusMessage : Option String
  headers : Option (List (String × String))
  body : JsonVal

/-- `saveMock` (mockStorage.ts:62-100): build the signature and path, then
persist the artifact via the `writeMock` task.  The returned pair is the
`(filePath, data)` handed to the storage collaborator.  `now` stands for
`new Date().toISOString()`. -/
def saveMock (config : MockConfig) (request : SaveRequest) (response : SaveResponse)
    (responseTime : Option Nat) (now : String) : String × RecordedMock :=
  let signature := createRequestSignature request.method request.url
  let filePath := generateMockPath config signature
  (filePath,
   { method := signature.method
     url := request.url
     pathname := signature.pathname
     queryParams := signature.queryParams
     status := response.statusCode
     statusMessage := response.statusMessage
     requestHeaders := request.headers
     responseHeaders := response.headers
     requestBody := request.body
     response := response.body
     responseTime := responseTime
     recordedAt := now
     version := none
     metadata := none })

/-- The `readMock` task (cypress.config.ts:19-26): missing file ⇒ `null`;
existing file ⇒ `JSON.parse(content)` with **no** try/catch, so an unparsable
file throws (modelled by `Except.error ()`), failing the task.  `fs` is the
filesystem (path ↦ contents), `parseJson` is `JSON.parse` (`none` = throw). -/
def readMockTask (fs : String → Option String) (parseJson : String → Option RecordedMock)
    (filePath : String) : Except Unit (Option RecordedMock) :=
  match fs filePath with
  | none => .ok none
  | some content =>
    match parseJson content with
    | some mock => .ok (some mock)
    | none => .error ()

/-- `loadMock` (mockStorage.ts:105-121): cache first under
`"METHOD:normalizedUrl"` (no storage access on a hit); on a miss, the
`readMock` task; a found artifact is cached before being returned.  The
`Bool` records whether the storage collaborator was consulted. -/
def loadMock (config : MockConfig) (fs : String → Option String)
    (parseJson : String → Option RecordedMock) (cache : MockCache)
    (signature : RequestSignature) :
    Except Unit (Option RecordedMock × MockCache × Bool) :=
  let filePath := generateMockPath config signature
  let cacheKey := signature.method ++ ":" ++ signature.normalizedUrl
  match mapGet cache cacheKey with
  | some mock => .ok (some mock, cache, false)
  | none =>
    match readMockTask fs parseJson filePath with
    | .error e => .error e
    | .ok none => .ok (none, cache, true)
    | .ok (some mock) => .ok (some mock, mapSet cache cacheKey mock, true)

/-- The per-file body of `preloadMocks` (mockStorage.ts:166-186), folded over
the listed files; a task failure (corrupt JSON) aborts the whole chain, as a
failed `cy.task` fails the Cypress command queue. -/
def preloadMocksAux (config : MockConfig) (fs : String → Option String)
    (parseJson : String → Option RecordedMock) :
    List String → MockCache → Except Unit MockCache
  | [], cache => .ok cache
  | file :: rest, cache =>
    match readMockTask fs parseJson (config.mockDir ++ "/" ++ file) with
    | .error e => .error e
    | .ok none => preloadMocksAux config fs parseJson rest cache
    | .ok (some mock) =>
      let signature := createRequestSignature mock.method mock.url
      let cacheKey := signature.method ++ ":" ++ signature.normalizedUrl
      preloadMocksAux config fs parseJson rest (mapSet cache cacheKey mock)

/-- `preloadMocks` (mockStorage.ts:166-186): load every listed artifact into
the cache and return `mockCache.size` (with the final cache). -/
def preloadMocks (config : MockConfig) (fs : String → Option String)
    (parseJson : String → Option RecordedMock) (files : List String)
    (cache : MockCache) : Except Unit (Nat × MockCache) :=
  (preloadMocksAux config fs parseJson files cache).map fun c => (mapSize c, c)

/-! ### networkRecorder.ts -/

/-- An intercepted request as Cypress presents it to the handler. -/
structure InterceptedRequest where
  method : String
  url : String
  headers : List (String × String)
  body : Option JsonVal

/-- The real backend's response, as seen in `req.continue((res) => ...)`. -/
structure BackendResponse where
  statusCode : Nat
  statusMessage : Option String
  headers : Option (List (String × String))
  body : JsonVal
  deriving Repr

/-- Outcome of the record-mode handler for one intercepted call. -/
inductive RecordAction where
  /-- `req.continue()` — excluded URL, forwarded untouched, nothing persisted. -/
  | passthrough
  /-- `req.continue(cb)` + `saveMock`: the artifact written to storage. -/
  | record (filePath : String) (mock : RecordedMock)

/-- `setupRecordMode`'s interception handler (networkRecorder.ts:73-116) for
one request/response exchange.  Returns the action (with the exact artifact
persisted via `saveMock`) and the response delivered to the test — which is
the backend's response, untouched: the callback passed to `req.continue`
only records, it never rewrites `res`.  Note the `saveMock` call sanitizes
only the two header records; `req.url` and the bodies are passed raw. -/
def recordModeHandler (config : MockConfig) (regexTest : String → String → Bool)
    (req : InterceptedRequest) (res : BackendResponse) (responseTime : Option Nat)
    (now : String) : RecordAction × BackendResponse :=
  if ¬ shouldRecordUrl regexTest config req.url then (.passthrough, res)
  else
    let saved := saveMock config
      { method := req.method
        url := req.url
        headers := some (sanitizeHeaders config defaultSanitizeOptions req.headers)
        body := req.body }
      { statusCode := res.statusCode
        statusMessage := res.statusMessage
        headers := res.headers.map (sanitizeHeaders config defaultSanitizeOptions)
        body := res.body }
      responseTime now
    (.record saved.1 saved.2, res)

/-- Outcome of the replay-mode handler for one intercepted call. -/
inductive ReplayAction where
  /-- `req.continue()` — excluded URL, forwarded untouched. -/
  | passthrough
  /-- `req.reply` with the stored status/body/headers (a cache/storage hit). -/
  | replyMock (statusCode : Nat) (body : JsonVal) (headers : Option (List (String × String)))
  /-- Miss with `autoFallback`: `req.continue(cb)` + auto-record. -/
  | fallbackRecord (filePath : String) (mock : RecordedMock)
  /-- Miss without fallback: `req.reply({statusCode: 500, body: {...}})`. -/
  | replyError (statusCode : Nat) (body : List (String × JsonVal))

/-- How many times the real backend is contacted for a call that ends in the
given action: `req.continue` forwards to the backend, `req.reply`
short-circuits without any network call (Cypress stubbing semantics). -/
def backendCalls : ReplayAction → Nat
  | .passthrough => 1
  | .fallbackRecord _ _ => 1
  | .replyMock _ _ _ => 0
  | .replyError _ _ => 0

/-- `setupReplayMode`'s interception handler (networkRecorder.ts:121-196) for
one intercepted call.  `res` is the response the real backend *would* give
(consulted only on the fallback path).  Propagates a `loadMock` task failure. -/
def replayModeHandler (config : MockConfig) (regexTest : String → String → Bool)
    (fs : String → Option String) (parseJson : String → Option RecordedMock)
    (cache : MockCache) (req : InterceptedRequest) (res : BackendResponse)
    (responseTime : Option Nat) (now : String) :
    Except Unit (ReplayAction × MockCache) :=
  if ¬ shouldRecordUrl regexTest config req.url then .ok (.passthrough, cache)
  else
    let signature := createRequestSignature req.method req.url
    match loadMock config fs parseJson cache signature with
    | .error e => .error e
    | .ok (some mock, cache', _) =>
      .ok (.replyMock mock.status mock.response mock.responseHeaders, cache')
    | .ok (none, cache', _) =>
      if config.autoFallback then
        let saved := saveMock config
          { method := req.method
            url := req.url
            headers := some (sanitizeHeaders config defaultSanitizeOptions req.headers)
            body := req.body }
          { statusCode := res.statusCode
            statusMessage := res.statusMessage
            headers := res.headers.map (sanitizeHeaders config defaultSanitizeOptions)
            body := res.body }
          responseTime now
        .ok (.fallbackRecord saved.1 saved.2, cache')
      else
        .ok (.replyError 500
          [("error", .str "Mock not found"),
           ("message", .str ("No mock available for " ++ req.method ++ " " ++ req.url)),
           ("hint", .str "Run tests with MODE=record first, or enable AUTO_FALLBACK")],
          cache')

/-! ### Auxiliary definitions for the statements -/

/-- The artifact a `RecordAction` persists, if any. -/
def RecordAction.savedMock : RecordAction → Option RecordedMock
  | .record _ m => some m
  | .passthrough => none

/-- The path a `RecordAction` persists to, if any. -/
def RecordAction.savedPath : RecordAction → Option String
  | .record p _ => some p
  | .passthrough => none

/-- Render a relative URL from slash-separated path segments and ordered
query pairs: `/s1/s2?k1=v1&k2=v2` (no `?` when the query list is empty). -/
def renderRel (segs : List (List Char)) (ps : List (String × String)) : String :=
  String.mk ('/' :: joinSep '/' segs ++
    (if ps = [] then [] else '?' :: joinSep '&' (ps.map fun p => p.1.data ++ '=' :: p.2.data)))

/-- Alphanumeric-only, nonempty path segment. -/
def goodSeg (seg : List Char) : Bool := !seg.isEmpty && seg.all Char.isAlphanum

/-- Query pairs whose names and values are alphanumeric-only. -/
def goodParams (ps : List (String × String)) : Bool :=
  ps.all fun p => p.1.data.all Char.isAlphanum && p.2.data.all Char.isAlphanum

/-- A string is *clean* for a pattern list when it either equals one tracked
value exactly, or contains no tracked value, no field token and is not the
sentinel — the fragment on which the placeholder pair round-trips. -/
def cleanStrB (config : MockConfig) (patterns : List (String × String)) (s : String) : Bool :=
  patterns.any (fun p => s = p.2) ||
  (patterns.all (fun p => !(decide (p.2.data <:+: s.data)) &&
      !(decide ((dynToken p.1).data <:+: s.data))) &&
    s ≠ config.dynamicPlaceholder)

mutual

/-- Every string atom of the value is clean (see `cleanStrB`). -/
def cleanV (config : MockConfig) (patterns : List (String × String)) : JsonVal → Bool
  | .str s => cleanStrB config patterns s
  | .arr xs => cleanL config patterns xs
  | .obj kvs => cleanO config patterns kvs
  | _ => true

/-- `cleanV` on every array element. -/
def cleanL (config : MockConfig) (patterns : List (String × String)) : List JsonVal → Bool
  | [] => true
  | x :: rest => cleanV config patterns x && cleanL config patterns rest

/-- `cleanV` on every object value. -/
def cleanO (config : MockConfig) (patterns : List (String × String)) :
    List (String × JsonVal) → Bool
  | [] => true
  | kv :: rest => cleanV config patterns kv.2 && cleanO config patterns rest

end

/-! ### Theorems: generic helper lemmas -/

theorem sortedPermEq {α : Type _} {r : α → α → Prop} {l₁ l₂ : List α}
    (hp : l₁.Perm l₂) (h₁ : l₁.Sorted r) (h₂ : l₂.Sorted r)
    (anti : ∀ a ∈ l₁, ∀ b ∈ l₁, r a b → r b a → a = b) : l₁ = l₂ := by
  induction l₁ generalizing l₂ with
  | nil => exact (List.Perm.eq_nil hp.symm).symm
  | cons a t₁ ih =>
    cases l₂ with
    | nil => exact absurd hp.eq_nil (by simp)
    | cons b t₂ =>
      have hab : a = b := by
        by_cases hh : a = b
        · exact hh
        · have ha2 : a ∈ t₂ := by
            rcases List.mem_cons.mp (hp.subset (List.mem_cons_self a t₁)) with h | h
            · exact absurd h hh
            · exact h
          have hb1 : b ∈ t₁ := by
            rcases List.mem_cons.mp (hp.symm.subset (List.mem_cons_self b t₂)) with h | h
            · exact absurd h.symm hh
            · exact h
          exact anti a (List.mem_cons_self a t₁) b (List.mem_cons_of_mem a hb1)
            ((List.sorted_cons.mp h₁).1 b hb1) ((List.sorted_cons.mp h₂).1 a ha2)
      subst hab
      have hpt : t₁.Perm t₂ := hp.cons_inv
      have := ih hpt (List.sorted_cons.mp h₁).2 (List.sorted_cons.mp h₂).2
        (fun x hx y hy hxy hyx =>
          anti x (List.mem_cons_of_mem a hx) y (List.mem_cons_of_mem a hy) hxy hyx)
      rw [this]

theorem insertionSortPermEq {α : Type _} (r : α → α → Prop) [DecidableRel r]
    [IsTotal α r] [IsTrans α r] {l₁ l₂ : List α} (hp : l₁.Perm l₂)
    (anti : ∀ a ∈ l₁, ∀ b ∈ l₁, r a b → r b a → a = b) :
    l₁.insertionSort r = l₂.insertionSort r := by
  apply sortedPermEq
    ((List.perm_insertionSort r l₁).trans (hp.trans (List.perm_insertionSort r l₂).symm))
    (List.sorted_insertionSort r l₁) (List.sorted_insertionSort r l₂)
  intro x hx y hy
  exact anti x ((List.perm_insertionSort r l₁).subset hx)
    y ((List.perm_insertionSort r l₁).subset hy)

theorem recordGet_recordSet_self (rec : List (String × String)) (k v : String) :
    recordGet (recordSet rec k v) k = some v := by
  induction rec with
  | nil => simp [recordSet, recordGet]
  | cons kv rest ih =>
    cases kv with
    | mk k' v' =>
      by_cases h : k' = k
      · simp [recordSet, recordGet, h]
      · simp only [recordSet, if_neg h]
        simpa [recordGet, if_neg h] using ih

theorem recordGet_recordSet_ne (rec : List (String × String)) (k k' v : String)
    (h : k' ≠ k) : recordGet (recordSet rec k' v) k = recordGet rec k := by
  induction rec with
  | nil => simp [recordSet, recordGet, h]
  | cons kv rest ih =>
    cases kv with
    | mk a b =>
      by_cases ha : a = k'
      · subst ha
        simp [recordSet, recordGet, h]
      · simp only [recordSet, if_neg ha]
        by_cases hak : a = k
        · simp [recordGet, hak]
        · simpa [recordGet, if_neg hak] using ih

/-! ### C4: include/exclude filtering -/

/-- C4: `shouldRecordUrl` evaluates exclude patterns first — any exclude
match (per the case-insensitive regex oracle) yields `false`, even when an
include pattern also matches; with no exclude match, an include match yields
`true`; and with no match in either list the default is `true`
(default-allow). -/
theorem c4_shouldRecordUrl_policy (regexTest : String → String → Bool)
    (config : MockConfig) (url : String) :
    ((∃ p ∈ config.excludePatterns, regexTest p url = true) →
      shouldRecordUrl regexTest config url = false) ∧
    ((∀ p ∈ config.excludePatterns, regexTest p url = false) →
      (∃ p ∈ config.includePatterns, regexTest p url = true) →
      shouldRecordUrl regexTest config url = true) ∧
    ((∀ p ∈ config.excludePatterns, regexTest p url = false) →
      (∀ p ∈ config.includePatterns, regexTest p url = false) →
      shouldRecordUrl regexTest config url = true) := by
  unfold shouldRecordUrl
  refine ⟨?_, ?_, ?_⟩
  · rintro ⟨p, hp, ht⟩
    rw [if_pos (List.any_eq_true.mpr ⟨p, hp, ht⟩)]
  · rintro hex ⟨p, hp, ht⟩
    rw [if_neg, if_pos (List.any_eq_true.mpr ⟨p, hp, ht⟩)]
    simp only [List.any_eq_true, not_exists, not_and]
    rintro q hq
    simp [hex q hq]
  · intro hex hinc
    rw [if_neg, if_neg]
    · simp only [List.any_eq_true, not_exists, not_and]
      rintro q hq
      simp [hinc q hq]
    · simp only [List.any_eq_true, not_exists, not_and]
      rintro q hq
      simp [hex q hq]

/-- Witness for C4 at concrete inputs: with `"/x"` in both lists, the URL
`"/xy"` (matched by both) is rejected — exclude wins — and `"/zz"` (matched
by neither) is accepted — default-allow. -/
theorem c4_witness :
    shouldRecordUrl (fun p u => jsStartsWith u p)
      { defaultConfig with excludePatterns := ["/x"], includePatterns := ["/x"] } "/xy" = false ∧
    shouldRecordUrl (fun p u => jsStartsWith u p)
      { defaultConfig with excludePatterns := ["/x"], includePatterns := ["/x"] } "/zz" = true := by
  constructor
  · exact (c4_shouldRecordUrl_policy (fun p u => jsStartsWith u p)
      { defaultConfig with excludePatterns := ["/x"], includePatterns := ["/x"] } "/xy").1
      ⟨"/x", by decide, by decide⟩
  · exact (c4_shouldRecordUrl_policy (fun p u => jsStartsWith u p)
      { defaultConfig with excludePatterns := ["/x"], includePatterns := ["/x"] } "/zz").2.2
      (by decide) (by decide)

/-! ### C5: replay miss with fallback disabled -/

/-- C5: in replay mode with `autoFallback = false`, an intercepted request
that passes the filter and whose mock does not load is short-circuited via
`req.reply` with status 500 and the structured error body naming the missing
mock's method and URL; the backend is contacted zero times (`req.reply`
never forwards). -/
theorem c5_replay_miss_hard_fails (config : MockConfig)
    (regexTest : String → String → Bool) (fs : String → Option String)
    (parseJson : String → Option RecordedMock) (cache : MockCache)
    (req : InterceptedRequest) (res : BackendResponse) (rt : Option Nat) (now : String)
    (hrec : shouldRecordUrl regexTest config req.url = true)
    (hmiss : loadMock config fs parseJson cache
      (createRequestSignature req.method req.url) = .ok (none, cache, true))
    (hnofb : config.autoFallback = false) :
    replayModeHandler config regexTest fs parseJson cache req res rt now =
      .ok (.replyError 500
        [("error", .str "Mock not found"),
         ("message", .str ("No mock available for " ++ req.method ++ " " ++ req.url)),
         ("hint", .str "Run tests with MODE=record first, or enable AUTO_FALLBACK")],
        cache) ∧
    (∀ body, backendCalls (.replyError 500 body) = 0) := by
  refine ⟨?_, fun body => rfl⟩
  simp [replayModeHandler, hrec, hmiss, hnofb]

/-- Witness for C5: a concrete miss (empty filesystem, empty cache) with
fallback off produces exactly the 500 reply and no backend call. -/
theorem c5_witness :
    replayModeHandler { defaultConfig with autoFallback := false }
      (fun p u => p = "^/api/" && jsStartsWith u "/api/") (fun _ => none) (fun _ => none) []
      { method := "DELETE", url := "/posts/1", headers := [], body := none }
      { statusCode := 200, statusMessage := none, headers := none, body := .null }
      none "t" =
      .ok (.replyError 500
        [("error", .str "Mock not found"),
         ("message", .str "No mock available for DELETE /posts/1"),
         ("hint", .str "Run tests with MODE=record first, or enable AUTO_FALLBACK")],
        []) ∧
    (∀ body, backendCalls (.replyError 500 body) = 0) := by
  have h := c5_replay_miss_hard_fails { defaultConfig with autoFallback := false }
    (fun p u => p = "^/api/" && jsStartsWith u "/api/") (fun _ => none) (fun _ => none) []
    { method := "DELETE", url := "/posts/1", headers := [], body := none }
    { statusCode := 200, statusMessage := none, headers := none, body := .null }
    none "t" (by decide) (by rfl) rfl
  exact h

/-! ### C6: loadMock cache discipline -/

/-- C6: `loadMock` checks the in-memory cache under `"METHOD:normalizedUrl"`
first: a hit returns the cached artifact with no storage access; a miss
consults the `readMock` task at the generated path, populates the cache
under that same key when the artifact exists, and returns `null` (without
raising) when it does not. -/
theorem c6_loadMock_cache_first (config : MockConfig) (fs : String → Option String)
    (parseJson : String → Option RecordedMock) (cache : MockCache)
    (signature : RequestSignature) :
    (∀ m, mapGet cache (signature.method ++ ":" ++ signature.normalizedUrl) = some m →
      loadMock config fs parseJson cache signature = .ok (some m, cache, false)) ∧
    (∀ m, mapGet cache (signature.method ++ ":" ++ signature.normalizedUrl) = none →
      readMockTask fs parseJson (generateMockPath config signature) = .ok (some m) →
      loadMock config fs parseJson cache signature =
        .ok (some m, mapSet cache (signature.method ++ ":" ++ signature.normalizedUrl) m, true)) ∧
    (mapGet cache (signature.method ++ ":" ++ signature.normalizedUrl) = none →
      readMockTask fs parseJson (generateMockPath config signature) = .ok none →
      loadMock config fs parseJson cache signature = .ok (none, cache, true)) := by
  refine ⟨?_, ?_, ?_⟩
  · intro m hhit
    simp [loadMock, hhit]
  · intro m hmiss hread
    simp [loadMock, hmiss, hread]
  · intro hmiss hread
    simp [loadMock, hmiss, hread]

/-- Witness for C6: a concrete hit returns the cached artifact untouched
(storage untouched), and a concrete absent-artifact miss returns `ok none`. -/
theorem c6_witness :
    loadMock defaultConfig (fun _ => none) (fun _ => none)
      [("GET:/posts",
        { method := "GET", url := "/posts", pathname := "/posts", queryParams := [],
          status := 200, statusMessage := none, requestHeaders := none,
          responseHeaders := none, requestBody := none, response := .null,
          responseTime := none, recordedAt := "t", version := none, metadata := none })]
      (createRequestSignature "get" "/posts") =
      .ok (some
        { method := "GET", url := "/posts", pathname := "/posts", queryParams := [],
          status := 200, statusMessage := none, requestHeaders := none,
          responseHeaders := none, requestBody := none, response := .null,
          responseTime := none, recordedAt := "t", version := none, metadata := none },
        [("GET:/posts",
          { method := "GET", url := "/posts", pathname := "/posts", queryParams := [],
            status := 200, statusMessage := none, requestHeaders := none,
            responseHeaders := none, requestBody := none, response := .null,
            responseTime := none, recordedAt := "t", version := none, metadata := none })],
        false) ∧
    loadMock defaultConfig (fun _ => none) (fun _ => none) []
      (createRequestSignature "get" "/posts") = .ok (none, [], true) := by
  constructor
  · exact (c6_loadMock_cache_first defaultConfig (fun _ => none) (fun _ => none) _
      (createRequestSignature "get" "/posts")).1 _ (by rfl)
  · exact (c6_loadMock_cache_first defaultConfig (fun _ => none) (fun _ => none) []
      (createRequestSignature "get" "/posts")).2.2 (by rfl) (by rfl)

/-! ### C10: matchRequest semantics -/

/-- C10: `matchRequest` succeeds iff the methods agree after uppercasing
(case-insensitive equality), the pathnames agree exactly, and every pair in
the mock's `queryParams` (absent/empty imposing nothing) appears with an
equal value among the request's query parameters — extra request parameters
are never an obstacle. -/
theorem c10_matchRequest_iff (request : RequestSignature) (mock : MockMetadata) :
    matchRequest request mock = true ↔
      (jsUpper request.method = jsUpper mock.method ∧
       request.pathname = mock.pathname ∧
       ∀ kv ∈ mock.queryParams.getD [], recordGet request.queryParams kv.1 = some kv.2) := by
  unfold matchRequest
  by_cases hm : jsUpper request.method = jsUpper mock.method
  · by_cases hp : request.pathname = mock.pathname
    · rw [if_neg (by simpa using hm), if_neg (by simpa using hp)]
      cases hqp : mock.queryParams with
      | none => simp [hm, hp]
      | some qp =>
        cases qp with
        | nil => simp [hm, hp]
        | cons kv rest =>
          simp [hm, hp, List.all_eq_true]
    · rw [if_neg (by simpa using hm), if_pos (by simpa using hp)]
      simp [hp]
  · rw [if_pos (by simpa using hm)]
    simp [hm]

/-- Witness for C10: a request with the extra parameter `b=2` still matches a
mock that pins only `a=1`, with case-insensitive method agreement. -/
theorem c10_witness :
    matchRequest (createRequestSignature "get" "/posts?a=1&b=2")
      { method := "GET", url := "/posts?a=1", pathname := "/posts",
        queryParams := some [("a", "1")] } = true := by
  apply (c10_matchRequest_iff (createRequestSignature "get" "/posts?a=1&b=2")
    { method := "GET", url := "/posts?a=1", pathname := "/posts",
      queryParams := some [("a", "1")] }).mpr
  refine ⟨by decide, by decide, ?_⟩
  intro kv hkv
  simp only [Option.getD_some] at hkv
  rcases List.mem_singleton.mp hkv with rfl
  decide

/-! ### C1: the record path persists an unsanitized URL -/

/-- C1: at the concrete recorded exchange `GET /api/data?token=secret123`,
the artifact handed to the storage collaborator by the record path carries
the *raw* URL — still containing `token=secret123` — even though
`sanitizeUrl` (and hence the full pipeline `sanitizeRecordedData`) masks
that parameter.  The record path never invokes the URL stage, so the claim's
"all stages before persistence" invariant fails on the `url` field. -/
theorem c1_record_persists_raw_url :
    ((recordModeHandler defaultConfig (fun p u => p = "^/api/" && jsStartsWith u "/api/")
        { method := "GET", url := "/api/data?token=secret123",
          headers := [("Authorization", "Bearer abc123")], body := none }
        { statusCode := 200, statusMessage := some "OK",
          headers := some [("Content-Type", "application/json")], body := .null }
        (some 12) "2026-01-13T16:00:00.000Z").1.savedMock.map RecordedMock.url)
      = some "/api/data?token=secret123" ∧
    sanitizeUrl "/api/data?token=secret123" = "/api/data?token=***REMOVED***" ∧
    (sanitizeRecordedData defaultConfig id defaultSanitizeOptions
        { url := "/api/data?token=secret123", requestHeaders := none,
          responseHeaders := none, requestBody := none, responseBody := none }).url
      = "/api/data?token=***REMOVED***" := by
  refine ⟨by decide, by decide, by decide⟩

/-! ### C7: fail-open behavior of normalizeUrl -/

/-- C7 counterexample: `"not a url"` does *not* fail URL parsing — against
the base `http://localhost` it parses as a relative path with its spaces
percent-encoded — so `normalizeUrl` returns `"/not%20a%20url"`, not the
input unchanged as the claim asserts. -/
theorem c7_counterexample :
    normalizeUrl "not a url" = "/not%20a%20url" ∧
    normalizeUrl "not a url" ≠ "not a url" := by
  refine ⟨by decide, by decide⟩

/-- C7 amended: for every input on which the URL constructor actually throws
(`jsNewURL url = none` — e.g. any input beginning with `"http"`, where the
empty-string base always throws), `normalizeUrl` returns the input string
unchanged; being a total function, the embedding never raises. -/
theorem c7_amended_fail_open (url : String) (h : jsNewURL url = none) :
    normalizeUrl url = url := by
  unfold normalizeUrl
  rw [h]

/-- Witness for C7: `"http://"` makes the constructor throw (empty base),
and `normalizeUrl` hands it back unchanged. -/
theorem c7_witness :
    jsNewURL "http://" = none ∧ normalizeUrl "http://" = "http://" :=
  ⟨by decide, c7_amended_fail_open "http://" (by decide)⟩

/-! ### C8: a corrupt artifact aborts preload -/

/-- C8: with two stored files of which one holds unparsable JSON, the
`readMock` task throws inside `JSON.parse` (no try/catch in
cypress.config.ts) and the whole preload chain fails (`Except.error`),
instead of skipping the corrupt entry; dropping the corrupt file from the
listing lets the same preload succeed and cache the one good artifact. -/
theorem c8_corrupt_file_aborts_preload :
    preloadMocks defaultConfig
      (fun p => if p = "cypress/mocks/good.json" then some "GOOD"
                else if p = "cypress/mocks/bad.json" then some "CORRUPT" else none)
      (fun s => if s = "GOOD" then some
          { method := "GET", url := "/api/a", pathname := "/api/a", queryParams := [],
            status := 200, statusMessage := none, requestHeaders := none,
            responseHeaders := none, requestBody := none, response := .null,
            responseTime := none, recordedAt := "t", version := none, metadata := none }
        else none)
      ["bad.json", "good.json"] [] = .error () ∧
    (preloadMocks defaultConfig
      (fun p => if p = "cypress/mocks/good.json" then some "GOOD"
                else if p = "cypress/mocks/bad.json" then some "CORRUPT" else none)
      (fun s => if s = "GOOD" then some
          { method := "GET", url := "/api/a", pathname := "/api/a", queryParams := [],
            status := 200, statusMessage := none, requestHeaders := none,
            responseHeaders := none, requestBody := none, response := .null,
            responseTime := none, recordedAt := "t", version := none, metadata := none }
        else none)
      ["good.json"] []).toOption.map Prod.fst = some 1 := by
  refine ⟨by rfl, by rfl⟩

/-! ### C3: query-order invariance -/

/-- C3 counterexample: the two absolute URLs differ only in the order of
their query parameters, yet `normalizeUrl` distinguishes them — for inputs
beginning with `"http"` the constructor's base is the empty string, which
always throws, so each input is returned unchanged and unsorted. -/
theorem c3_counterexample :
    normalizeUrl "http://h/p?b=2&a=1" ≠ normalizeUrl "http://h/p?a=1&b=2" := by
  decide

/-! ### C2: record mode masks configured headers, delivers the raw response -/

theorem recordFold_preserve (step : List (String × String) → (String × String) → List (String × String))
    (name : String)
    (hpres : ∀ acc kv, kv.1 ≠ name → recordGet (step acc kv) name = recordGet acc name) :
    ∀ (headers : List (String × String)) (acc : List (String × String)),
      name ∉ headers.map Prod.fst →
      recordGet (headers.foldl step acc) name = recordGet acc name := by
  intro headers
  induction headers with
  | nil => intro acc _; rfl
  | cons kv rest ih =>
    intro acc hna
    rw [List.foldl_cons]
    have hk : kv.1 ≠ name := by
      intro h
      exact hna (by rw [List.map_cons, h]; exact List.mem_cons_self name _)
    have hna' : name ∉ rest.map Prod.fst := by
      intro h
      exact hna (by rw [List.map_cons]; exact List.mem_cons_of_mem _ h)
    rw [ih (step acc kv) hna', hpres acc kv hk]

theorem recordFold_masked (step : List (String × String) → (String × String) → List (String × String))
    (name : String)
    (hpres : ∀ acc kv, kv.1 ≠ name → recordGet (step acc kv) name = recordGet acc name)
    (hmask : ∀ acc value, recordGet (step acc (name, value)) name = some "***REMOVED***") :
    ∀ (headers : List (String × String)) (acc : List (String × String)),
      (headers.map Prod.fst).Nodup → (∃ v, (name, v) ∈ headers) →
      recordGet (headers.foldl step acc) name = some "***REMOVED***" := by
  intro headers
  induction headers with
  | nil => rintro acc _ ⟨v, hv⟩; simp at hv
  | cons kv rest ih =>
    rintro acc hnd ⟨v, hv⟩
    rw [List.foldl_cons]
    by_cases hk : kv.1 = name
    · have hrest : name ∉ rest.map Prod.fst := by
        have := (List.nodup_cons.mp hnd).1
        rwa [hk] at this
      rw [recordFold_preserve step name hpres rest (step acc kv) hrest]
      cases kv with
      | mk k v' =>
        simp only at hk
        subst hk
        exact hmask acc v'
    · rcases List.mem_cons.mp hv with h | h
      · exact absurd (congrArg Prod.fst h.symm) hk
      · exact ih (step acc kv) (List.nodup_cons.mp hnd).2 ⟨v, h⟩

theorem sanitizeHeaders_masks_listed (config : MockConfig) (options : SanitizeOptions)
    (headers : List (String × String)) (name value : String)
    (hopts : options.sanitizeHeaders = true) (hmav : options.maskAuthValues = true)
    (hnd : (headers.map Prod.fst).Nodup) (hmem : (name, value) ∈ headers)
    (hlist : config.sanitizeHeaders.any (fun h => jsLower name = jsLower h) = true) :
    recordGet (sanitizeHeaders config options headers) name = some "***REMOVED***" := by
  unfold sanitizeHeaders
  rw [if_neg (by simp [hopts])]
  apply recordFold_masked _ name
  · intro acc kv hk
    dsimp only
    split_ifs
    all_goals first
    | rfl
    | exact recordGet_recordSet_ne acc name kv.1 _ hk
  · intro acc v
    dsimp only
    rw [if_pos hlist, if_pos hmav]
    exact recordGet_recordSet_self acc name "***REMOVED***"
  · exact hnd
  · exact ⟨value, hmem⟩

/-- C2: in record mode, for any intercepted exchange that passes the filter,
the persisted artifact's header records are exactly the sanitized ones — any
header whose lowercased name is in the configured sanitize list maps to the
sentinel `***REMOVED***` (case-insensitive match, both directions) — while
the response delivered to the test during that same call is the backend's
response, untouched. -/
theorem c2_record_masks_headers (config : MockConfig)
    (regexTest : String → String → Bool) (req : InterceptedRequest)
    (res : BackendResponse) (rt : Option Nat) (now : String) (name : String)
    (hrec : shouldRecordUrl regexTest config req.url = true)
    (hlist : config.sanitizeHeaders.any (fun h => jsLower name = jsLower h) = true) :
    (recordModeHandler config regexTest req res rt now).2 = res ∧
    (recordModeHandler config regexTest req res rt now).1.savedMock.isSome = true ∧
    (∀ m, (recordModeHandler config regexTest req res rt now).1.savedMock = some m →
      m.requestHeaders = some (sanitizeHeaders config defaultSanitizeOptions req.headers) ∧
      m.responseHeaders = res.headers.map (sanitizeHeaders config defaultSanitizeOptions)) ∧
    (∀ value, (req.headers.map Prod.fst).Nodup → (name, value) ∈ req.headers →
      recordGet (sanitizeHeaders config defaultSanitizeOptions req.headers) name
        = some "***REMOVED***") ∧
    (∀ hs value, res.headers = some hs → (hs.map Prod.fst).Nodup → (name, value) ∈ hs →
      recordGet (sanitizeHeaders config defaultSanitizeOptions hs) name
        = some "***REMOVED***") := by
  refine ⟨?_, ?_, ?_, ?_, ?_⟩
  · simp [recordModeHandler, hrec]
  · simp [recordModeHandler, hrec, RecordAction.savedMock]
  · intro m hm
    rw [recordModeHandler, if_neg (by simp [hrec])] at hm
    simp only [RecordAction.savedMock] at hm
    have hm' := Option.some.inj hm
    subst hm'
    exact ⟨rfl, rfl⟩
  · intro value hnd hmem
    exact sanitizeHeaders_masks_listed config defaultSanitizeOptions req.headers name value
      rfl rfl hnd hmem hlist
  · intro hs value _ hnd hmem
    exact sanitizeHeaders_masks_listed config defaultSanitizeOptions hs name value
      rfl rfl hnd hmem hlist

/-- Witness for C2: the recorded artifact's `Authorization` header is the
sentinel, and the delivered response is the backend's response verbatim. -/
theorem c2_witness :
    recordGet (sanitizeHeaders defaultConfig defaultSanitizeOptions
      [("Authorization", "Bearer abc123"), ("Accept", "application/json")]) "Authorization"
      = some "***REMOVED***" ∧
    (recordModeHandler defaultConfig (fun p u => p = "^/api/" && jsStartsWith u "/api/")
      { method := "GET", url := "/api/users",
        headers := [("Authorization", "Bearer abc123"), ("Accept", "application/json")],
        body := none }
      { statusCode := 200, statusMessage := none, headers := none, body := .null }
      none "t").2
      = { statusCode := 200, statusMessage := none, headers := none, body := .null } := by
  have h := c2_record_masks_headers defaultConfig
    (fun p u => p = "^/api/" && jsStartsWith u "/api/")
    { method := "GET", url := "/api/users",
      headers := [("Authorization", "Bearer abc123"), ("Accept", "application/json")],
      body := none }
    { statusCode := 200, statusMessage := none, headers := none, body := .null }
    none "t" "Authorization" (by decide) (by decide)
  exact ⟨h.2.2.2.1 "Bearer abc123" (by decide) (by decide), h.1⟩

/-! ### C3 machinery: characters, splitting, encoding -/

theorem alnum_toNat_facts (c : Char) (h : c.isAlphanum = true) :
    (48 ≤ c.toNat ∧ c.toNat ≤ 57) ∨ (65 ≤ c.toNat ∧ c.toNat ≤ 90) ∨
    (97 ≤ c.toNat ∧ c.toNat ≤ 122) := by
  simp only [Char.isAlphanum, Char.isAlpha, Char.isDigit, Char.isUpper, Char.isLower,
    Bool.or_eq_true, Bool.and_eq_true, decide_eq_true_eq] at h
  rcases h with (⟨h1, h2⟩ | ⟨h1, h2⟩) | ⟨h1, h2⟩
  · right; left
    exact ⟨h1, h2⟩
  · right; right
    exact ⟨h1, h2⟩
  · left
    exact ⟨h1, h2⟩

theorem alnum_ne (c : Char) (h : c.isAlphanum = true) (d : Char)
    (hd : d.toNat < 48 ∨ (57 < d.toNat ∧ d.toNat < 65) ∨ (90 < d.toNat ∧ d.toNat < 97) ∨
      122 < d.toNat) : c ≠ d := by
  intro he
  subst he
  rcases alnum_toNat_facts c h with ⟨h1, h2⟩ | ⟨h1, h2⟩ | ⟨h1, h2⟩ <;> omega

theorem alnum_gt_space (c : Char) (h : c.isAlphanum = true) : 0x20 < c.toNat := by
  rcases alnum_toNat_facts c h with ⟨h1, _⟩ | ⟨h1, _⟩ | ⟨h1, _⟩ <;> omega

theorem dropWhile_eq_self_of {p : Char → Bool} {l : List Char}
    (h : ∀ c ∈ l, p c = false) : l.dropWhile p = l := by
  cases l with
  | nil => rfl
  | cons c rest =>
    rw [List.dropWhile_cons, if_neg]
    simp [h c (List.mem_cons_self c rest)]

theorem stripControls_eq_self (l : List Char) (h : ∀ c ∈ l, 0x20 < c.toNat) :
    stripControls l = l := by
  unfold stripControls
  have hf : l.filter (fun c => c.toNat != 9 && c.toNat != 10 && c.toNat != 13) = l := by
    apply List.filter_eq_self.mpr
    intro c hc
    have := h c hc
    simp only [Bool.and_eq_true, bne_iff_ne, ne_eq]
    omega
  dsimp only
  rw [hf]
  have h1 : l.dropWhile (fun c => decide (c.toNat ≤ 32)) = l :=
    dropWhile_eq_self_of (fun c hc => by
      simp only [decide_eq_false_iff_not, not_le]
      have := h c hc
      omega)
  rw [h1]
  have h2 : l.reverse.dropWhile (fun c => decide (c.toNat ≤ 32)) = l.reverse :=
    dropWhile_eq_self_of (fun c hc => by
      simp only [decide_eq_false_iff_not, not_le]
      have := h c (List.mem_reverse.mp hc)
      omega)
  rw [h2, List.reverse_reverse]

theorem splitFirst_of_not_mem (l : List Char) (c : Char) (h : c ∉ l) :
    splitFirst l c = (l, none) := by
  induction l with
  | nil => rfl
  | cons x rest ih =>
    have hx : x ≠ c := fun e => h (e ▸ List.mem_cons_self x rest)
    rw [splitFirst, if_neg hx, ih (fun m => h (List.mem_cons_of_mem x m))]

theorem splitFirst_append (a b : List Char) (c : Char) (h : c ∉ a) :
    splitFirst (a ++ c :: b) c = (a, some b) := by
  induction a with
  | nil => simp [splitFirst]
  | cons x rest ih =>
    have hx : x ≠ c := fun e => h (e ▸ List.mem_cons_self x rest)
    rw [List.cons_append, splitFirst, if_neg hx, ih (fun m => h (List.mem_cons_of_mem x m))]

theorem splitOnSep_of_not_mem (sep : Char) (l : List Char) (h : sep ∉ l) :
    splitOnSep sep l = [l] := by
  induction l with
  | nil => rfl
  | cons x rest ih =>
    have hx : x ≠ sep := fun e => h (e ▸ List.mem_cons_self x rest)
    rw [splitOnSep, if_neg hx, ih (fun m => h (List.mem_cons_of_mem x m))]

theorem splitOnSep_append (sep : Char) (s l : List Char) (h : sep ∉ s) :
    splitOnSep sep (s ++ sep :: l) = s :: splitOnSep sep l := by
  induction s with
  | nil => simp [splitOnSep]
  | cons x rest ih =>
    have hx : x ≠ sep := fun e => h (e ▸ List.mem_cons_self x rest)
    rw [List.cons_append, splitOnSep, if_neg hx, ih (fun m => h (List.mem_cons_of_mem x m))]

theorem splitOnSep_joinSep (sep : Char) (segs : List (List Char)) (hne : segs ≠ [])
    (h : ∀ s ∈ segs, sep ∉ s) : splitOnSep sep (joinSep sep segs) = segs := by
  induction segs with
  | nil => exact absurd rfl hne
  | cons s rest ih =>
    cases rest with
    | nil =>
      rw [joinSep, splitOnSep_of_not_mem sep s (h s (List.mem_cons_self s []))]
    | cons s2 rest2 =>
      show splitOnSep sep (s ++ sep :: joinSep sep (s2 :: rest2)) = s :: s2 :: rest2
      rw [splitOnSep_append sep s _ (h s (List.mem_cons_self s _))]
      rw [ih (by simp) (fun x hx => h x (List.mem_cons_of_mem s hx))]

theorem mem_joinSep {sep : Char} {segs : List (List Char)} {c : Char}
    (h : c ∈ joinSep sep segs) : c = sep ∨ ∃ s ∈ segs, c ∈ s := by
  induction segs with
  | nil => simp [joinSep] at h
  | cons s rest ih =>
    cases rest with
    | nil =>
      rw [joinSep] at h
      exact Or.inr ⟨s, List.mem_cons_self s [], h⟩
    | cons s2 rest2 =>
      have h' : c ∈ s ++ sep :: joinSep sep (s2 :: rest2) := h
      rcases List.mem_append.mp h' with h1 | h2
      · exact Or.inr ⟨s, List.mem_cons_self s _, h1⟩
      · rcases List.mem_cons.mp h2 with h3 | h4
        · exact Or.inl h3
        · rcases ih h4 with h5 | ⟨x, hx, hcx⟩
          · exact Or.inl h5
          · exact Or.inr ⟨x, List.mem_cons_of_mem s hx, hcx⟩

theorem flatMap_singleton_id {α : Type _} {f : α → List α} :
    ∀ {l : List α}, (∀ c ∈ l, f c = [c]) → l.flatMap f = l := by
  intro l
  induction l with
  | nil => intro _; rfl
  | cons x rest ih =>
    intro h
    rw [List.flatMap_cons, h x (List.mem_cons_self x rest),
      ih (fun c hc => h c (List.mem_cons_of_mem x hc))]
    rfl

theorem map_eq_self_of {α : Type _} {f : α → α} {l : List α}
    (h : ∀ c ∈ l, f c = c) : l.map f = l := by
  induction l with
  | nil => rfl
  | cons x rest ih =>
    rw [List.map_cons, h x (List.mem_cons_self x rest),
      ih (fun c hc => h c (List.mem_cons_of_mem x hc))]

theorem percentDecode_of_not_mem : ∀ (l : List Char), '%' ∉ l → percentDecode l = l
  | [], _ => rfl
  | [c], h => by
    have hc : c ≠ '%' := fun e => h (e ▸ List.mem_cons_self c [])
    rfl
  | [c, c1], h => by
    have hc : c ≠ '%' := fun e => h (e ▸ List.mem_cons_self c [c1])
    show c :: percentDecode [c1] = [c, c1]
    rw [percentDecode_of_not_mem [c1] (fun m => h (List.mem_cons_of_mem c m))]
  | c :: c1 :: c2 :: rest, h => by
    have hc : c ≠ '%' := fun e => h (e ▸ List.mem_cons_self c _)
    show (if c = '%' then _ else c :: percentDecode (c1 :: c2 :: rest)) = _
    rw [if_neg hc,
      percentDecode_of_not_mem (c1 :: c2 :: rest) (fun m => h (List.mem_cons_of_mem c m))]

theorem formDecode_alnum (s : String) (h : ∀ c ∈ s.data, c.isAlphanum = true) :
    formDecode s = s := by
  unfold formDecode
  rw [map_eq_self_of (fun c hc => by
    rw [if_neg]
    exact alnum_ne c (h c hc) '+' (by left; decide))]
  rw [percentDecode_of_not_mem s.data (fun m => by
    have := alnum_ne '%' (h '%' m) '%' (by left; decide)
    exact this rfl)]

theorem pathEncodeChar_alnum (c : Char) (h : c.isAlphanum = true) :
    pathEncodeChar c = [c] := by
  unfold pathEncodeChar
  rw [if_neg]
  intro hcond
  simp only [Bool.or_eq_true, decide_eq_true_eq] at hcond
  rcases hcond with ((((((((((h1 | h1) | h1) | h1) | h1) | h1) | h1) | h1) | h1) | h1) | h1)
  · rcases alnum_toNat_facts c h with ⟨a, b⟩ | ⟨a, b⟩ | ⟨a, b⟩ <;> omega
  · rcases alnum_toNat_facts c h with ⟨a, b⟩ | ⟨a, b⟩ | ⟨a, b⟩ <;> omega
  · rw [h1] at h; exact absurd h (by decide)
  · rw [h1] at h; exact absurd h (by decide)
  · rw [h1] at h; exact absurd h (by decide)
  · rw [h1] at h; exact absurd h (by decide)
  · rw [h1] at h; exact absurd h (by decide)
  · rw [h1] at h; exact absurd h (by decide)
  · rcases alnum_toNat_facts c h with ⟨a, b⟩ | ⟨a, b⟩ | ⟨a, b⟩ <;> omega
  · rcases alnum_toNat_facts c h with ⟨a, b⟩ | ⟨a, b⟩ | ⟨a, b⟩ <;> omega
  · rcases alnum_toNat_facts c h with ⟨a, b⟩ | ⟨a, b⟩ | ⟨a, b⟩ <;> omega

theorem queryEncodeChar_query (c : Char)
    (h : c = '&' ∨ c = '=' ∨ c.isAlphanum = true) : queryEncodeChar c = [c] := by
  rcases h with h | h | h
  · rw [h]; decide
  · rw [h]; decide
  · unfold queryEncodeChar
    rw [if_neg]
    intro hcond
    simp only [Bool.or_eq_true, decide_eq_true_eq] at hcond
    rcases hcond with (((((((h1 | h1) | h1) | h1) | h1) | h1) | h1) | h1)
    · rcases alnum_toNat_facts c h with ⟨a, b⟩ | ⟨a, b⟩ | ⟨a, b⟩ <;> omega
    · rcases alnum_toNat_facts c h with ⟨a, b⟩ | ⟨a, b⟩ | ⟨a, b⟩ <;> omega
    · rw [h1] at h; exact absurd h (by decide)
    · rw [h1] at h; exact absurd h (by decide)
    · rw [h1] at h; exact absurd h (by decide)
    · rw [h1] at h; exact absurd h (by decide)
    · rw [h1] at h; exact absurd h (by decide)
    · rcases alnum_toNat_facts c h with ⟨a, b⟩ | ⟨a, b⟩ | ⟨a, b⟩ <;> omega

theorem procSegs_no_dots : ∀ (l : List (List Char)) (acc : List (List Char)),
    (∀ s ∈ l, s ≠ ['.'] ∧ s ≠ ['.', '.']) → procSegs l acc = acc.reverse ++ l := by
  intro l
  induction l with
  | nil => intro acc _; simp [procSegs]
  | cons seg tail ih =>
    intro acc h
    cases tail with
    | nil =>
      show (if seg = ['.', '.'] then (acc.drop 1).reverse ++ [[]]
            else if seg = ['.'] then acc.reverse ++ [[]]
            else acc.reverse ++ [seg]) = acc.reverse ++ [seg]
      rw [if_neg (h seg (List.mem_cons_self seg [])).2,
        if_neg (h seg (List.mem_cons_self seg [])).1]
    | cons s2 rest =>
      show (if seg = ['.', '.'] then procSegs (s2 :: rest) (acc.drop 1)
            else if seg = ['.'] then procSegs (s2 :: rest) acc
            else procSegs (s2 :: rest) (seg :: acc)) = acc.reverse ++ seg :: s2 :: rest
      rw [if_neg (h seg (List.mem_cons_self seg _)).2,
        if_neg (h seg (List.mem_cons_self seg _)).1]
      rw [ih (seg :: acc) (fun x hx => h x (List.mem_cons_of_mem seg hx))]
      rw [List.reverse_cons, List.append_assoc]
      rfl

theorem alnum_seg_no_dots (s : List Char) (h : ∀ c ∈ s, c.isAlphanum = true) :
    s ≠ ['.'] ∧ s ≠ ['.', '.'] := by
  constructor
  · intro he
    subst he
    exact absurd (h '.' (List.mem_cons_self '.' [])) (by decide)
  · intro he
    subst he
    exact absurd (h '.' (List.mem_cons_self '.' _)) (by decide)

theorem pathSegEncode_alnum (s : List Char) (h : ∀ c ∈ s, c.isAlphanum = true) :
    pathSegEncode s = s :=
  flatMap_singleton_id (fun c hc => pathEncodeChar_alnum c (h c hc))

theorem resolvePath_joinSep (segs : List (List Char))
    (hsegs : ∀ s ∈ segs, s ≠ [] ∧ ∀ c ∈ s, c.isAlphanum = true) :
    resolvePath (joinSep '/' segs) = String.mk ('/' :: joinSep '/' segs) := by
  cases segs with
  | nil => rfl
  | cons s rest =>
    unfold resolvePath
    rw [splitOnSep_joinSep '/' (s :: rest) (by simp)
      (fun x hx hc => absurd ((hsegs x hx).2 '/' hc) (by decide))]
    rw [map_eq_self_of (fun x hx => pathSegEncode_alnum x (hsegs x hx).2)]
    dsimp only
    rw [procSegs_no_dots (s :: rest) [] (fun x hx => alnum_seg_no_dots x (hsegs x hx).2)]
    rfl

theorem mem_renderRel {segs : List (List Char)} {ps : List (String × String)} {c : Char}
    (hsegs : ∀ s ∈ segs, s ≠ [] ∧ ∀ x ∈ s, x.isAlphanum = true)
    (hps : ∀ p ∈ ps, (∀ x ∈ p.1.data, x.isAlphanum = true) ∧
      (∀ x ∈ p.2.data, x.isAlphanum = true))
    (h : c ∈ (renderRel segs ps).data) :
    c = '/' ∨ c = '?' ∨ c = '&' ∨ c = '=' ∨ c.isAlphanum = true := by
  have h' : c ∈ '/' :: (joinSep '/' segs ++
      (if ps = [] then [] else '?' :: joinSep '&'
        (ps.map fun p => p.1.data ++ '=' :: p.2.data))) := h
  rcases List.mem_cons.mp h' with h1 | h1
  · exact Or.inl h1
  rcases List.mem_append.mp h1 with h2 | h2
  · rcases mem_joinSep h2 with h3 | ⟨s, hs, hcs⟩
    · exact Or.inl h3
    · exact Or.inr (Or.inr (Or.inr (Or.inr ((hsegs s hs).2 c hcs))))
  · by_cases hne : ps = []
    · rw [if_pos hne] at h2
      simp at h2
    · rw [if_neg hne] at h2
      rcases List.mem_cons.mp h2 with h3 | h3
      · exact Or.inr (Or.inl h3)
      · rcases mem_joinSep h3 with h4 | ⟨tok, htok, hctok⟩
        · exact Or.inr (Or.inr (Or.inl h4))
        · rcases List.mem_map.mp htok with ⟨p, hp, rfl⟩
          rcases List.mem_append.mp hctok with h5 | h5
          · exact Or.inr (Or.inr (Or.inr (Or.inr ((hps p hp).1 c h5))))
          · rcases List.mem_cons.mp h5 with h6 | h6
            · exact Or.inr (Or.inr (Or.inr (Or.inl h6)))
            · exact Or.inr (Or.inr (Or.inr (Or.inr ((hps p hp).2 c h6))))

theorem renderRel_data (segs : List (List Char)) (ps : List (String × String)) :
    (renderRel segs ps).data = '/' :: (joinSep '/' segs ++
      (if ps = [] then [] else '?' :: joinSep '&'
        (ps.map fun p => p.1.data ++ '=' :: p.2.data))) := rfl

theorem not_mem_pathChars (segs : List (List Char))
    (hsegs : ∀ s ∈ segs, s ≠ [] ∧ ∀ c ∈ s, c.isAlphanum = true)
    (d : Char) (hd1 : d ≠ '/') (hd2 : d.isAlphanum = false) :
    d ∉ '/' :: joinSep '/' segs := by
  intro hmem
  rcases List.mem_cons.mp hmem with h | h
  · exact hd1 h
  · rcases mem_joinSep h with h1 | ⟨s, hs, hds⟩
    · exact hd1 h1
    · rw [(hsegs s hs).2 d hds] at hd2
      exact Bool.true_eq_false.mp hd2

theorem mem_queryChars {ps : List (String × String)} {c : Char}
    (hps : ∀ p ∈ ps, (∀ x ∈ p.1.data, x.isAlphanum = true) ∧
      (∀ x ∈ p.2.data, x.isAlphanum = true))
    (h : c ∈ joinSep '&' (ps.map fun p => p.1.data ++ '=' :: p.2.data)) :
    c = '&' ∨ c = '=' ∨ c.isAlphanum = true := by
  rcases mem_joinSep h with h1 | ⟨tok, htok, hctok⟩
  · exact Or.inl h1
  · rcases List.mem_map.mp htok with ⟨p, hp, rfl⟩
    rcases List.mem_append.mp hctok with h5 | h5
    · exact Or.inr (Or.inr ((hps p hp).1 c h5))
    · rcases List.mem_cons.mp h5 with h6 | h6
      · exact Or.inr (Or.inl h6)
      · exact Or.inr (Or.inr ((hps p hp).2 c h6))

theorem parseRelative_render (segs : List (List Char)) (ps : List (String × String))
    (hsegs : ∀ s ∈ segs, s ≠ [] ∧ ∀ c ∈ s, c.isAlphanum = true)
    (hps : ∀ p ∈ ps, (∀ c ∈ p.1.data, c.isAlphanum = true) ∧
      (∀ c ∈ p.2.data, c.isAlphanum = true)) :
    parseRelative (renderRel segs ps) = some
      { host := "localhost",
        pathname := String.mk ('/' :: joinSep '/' segs),
        query := if ps = [] then none
                 else some (String.mk (joinSep '&'
                   (ps.map fun p => p.1.data ++ '=' :: p.2.data))) } := by
  have hchar : ∀ c ∈ (renderRel segs ps).data,
      c = '/' ∨ c = '?' ∨ c = '&' ∨ c = '=' ∨ c.isAlphanum = true :=
    fun c hc => mem_renderRel hsegs hps hc
  have hstrip : stripControls (renderRel segs ps).data = (renderRel segs ps).data := by
    apply stripControls_eq_self
    intro c hc
    rcases hchar c hc with rfl | rfl | rfl | rfl | h
    · decide
    · decide
    · decide
    · decide
    · exact alnum_gt_space c h
  have hbs : ∀ l : List Char, (∀ c ∈ l, c ∈ (renderRel segs ps).data) →
      l.map (fun c => if c = '\\' then '/' else c) = l := by
    intro l hl
    apply map_eq_self_of
    intro c hc
    rw [if_neg]
    intro he
    subst he
    rcases hchar _ (hl _ hc) with h | h | h | h | h
    · exact absurd h (by decide)
    · exact absurd h (by decide)
    · exact absurd h (by decide)
    · exact absurd h (by decide)
    · exact absurd h (by decide)
  have htake : ((renderRel segs ps).data).take 2 ≠ ['/', '/'] := by
    rw [renderRel_data]
    cases segs with
    | nil =>
      by_cases hne : ps = []
      · rw [if_pos hne]
        decide
      · rw [if_neg hne]
        intro he
        have := List.cons.inj he
        have h2 := List.cons.inj (congrArg id (this.2))
        simp [joinSep] at this
      | cons s rest =>
        rcases s with _ | ⟨c0, s'⟩
        · exact absurd rfl (hsegs [] (List.mem_cons_self [] rest)).1
        · have hjoin : ∃ X, joinSep '/' ((c0 :: s') :: rest) = c0 :: (s' ++ X) := by
            cases rest with
            | nil => exact ⟨[], by simp [joinSep]⟩
            | cons s2 rest2 =>
              exact ⟨'/' :: joinSep '/' (s2 :: rest2), by simp [joinSep]⟩
          rcases hjoin with ⟨X, hX⟩
          rw [hX]
          intro he
          have h1 := (List.cons.inj he).2
          have h2 := (List.cons.inj h1).1
          have := (hsegs (c0 :: s') (List.mem_cons_self _ rest)).2 c0
            (List.mem_cons_self c0 s')
          rw [h2] at this
          exact absurd this (by decide)
  have hhash : '#' ∉ (renderRel segs ps).data := by
    intro hm
    rcases hchar _ hm with h | h | h | h | h
    · exact absurd h (by decide)
    · exact absurd h (by decide)
    · exact absurd h (by decide)
    · exact absurd h (by decide)
    · exact absurd h (by decide)
  unfold parseRelative
  rw [hstrip, if_neg (by simpa using htake)]
  rw [splitFirst_of_not_mem _ '#' hhash]
  dsimp only
  by_cases hne : ps = []
  · subst hne
    have hrd : (renderRel segs []).data = '/' :: joinSep '/' segs := by
      rw [renderRel_data]
      simp
    rw [hrd]
    rw [splitFirst_of_not_mem _ '?' (not_mem_pathChars segs hsegs '?' (by decide) (by decide))]
    rw [hbs ('/' :: joinSep '/' segs) (fun c hc => hrd ▸ hc)]
    simp only [List.head?_cons, if_true, if_pos rfl, List.drop_succ_cons, List.drop_zero]
    rw [resolvePath_joinSep segs hsegs]
    rfl
  · have hrd : (renderRel segs ps).data = ('/' :: joinSep '/' segs) ++ '?' :: joinSep '&'
        (ps.map fun p => p.1.data ++ '=' :: p.2.data) := by
      rw [renderRel_data, if_neg hne]
      rfl
    rw [hrd]
    rw [splitFirst_append _ _ '?' (not_mem_pathChars segs hsegs '?' (by decide) (by decide))]
    rw [hbs ('/' :: joinSep '/' segs) (by
      intro c hc
      rw [hrd]
      exact List.mem_append_left _ hc)]
    simp only [List.head?_cons, if_true, if_pos rfl, List.drop_succ_cons, List.drop_zero]
    rw [resolvePath_joinSep segs hsegs]
    rw [if_neg hne]
    have hqe : queryEncode (joinSep '&' (ps.map fun p => p.1.data ++ '=' :: p.2.data)) =
        joinSep '&' (ps.map fun p => p.1.data ++ '=' :: p.2.data) := by
      apply flatMap_singleton_id
      intro c hc
      exact queryEncodeChar_query c (mem_queryChars hps hc)
    simp only [Option.map_some']
    rw [hqe]

theorem jsStartsWith_render_http (segs : List (List Char)) (ps : List (String × String)) :
    jsStartsWith (renderRel segs ps) "http" = false := by
  unfold jsStartsWith
  rw [renderRel_data]
  rfl

theorem token_ne_nil (p : String × String) : p.1.data ++ '=' :: p.2.data ≠ [] := by
  intro h
  cases hk : p.1.data with
  | nil => rw [hk] at h; simp at h
  | cons c rest => rw [hk] at h; simp at h

theorem parse_tokens (ps : List (String × String))
    (hps : ∀ p ∈ ps, (∀ c ∈ p.1.data, c.isAlphanum = true) ∧
      (∀ c ∈ p.2.data, c.isAlphanum = true)) (hne : ps ≠ []) :
    ((splitOnSep '&' (joinSep '&' (ps.map fun p => p.1.data ++ '=' :: p.2.data))).filter
      (fun seg => seg ≠ [])).map parseFormPair = ps := by
  rw [splitOnSep_joinSep '&' _ (by simpa using hne) (by
    intro tok htok hmem
    rcases List.mem_map.mp htok with ⟨p, hp, rfl⟩
    rcases List.mem_append.mp hmem with h | h
    · exact absurd ((hps p hp).1 '&' h) (by decide)
    · rcases List.mem_cons.mp h with h1 | h1
      · exact absurd h1.symm (by decide)
      · exact absurd ((hps p hp).2 '&' h1) (by decide))]
  rw [List.filter_eq_self.mpr (by
    intro tok htok
    rcases List.mem_map.mp htok with ⟨p, hp, rfl⟩
    simpa using token_ne_nil p)]
  rw [List.map_map]
  apply map_eq_self_of
  intro p hp
  show parseFormPair (p.1.data ++ '=' :: p.2.data) = p
  unfold parseFormPair
  rw [splitFirst_append p.1.data p.2.data '=' (by
    intro hmem
    exact absurd ((hps p hp).1 '=' hmem) (by decide))]
  dsimp only [Option.getD_some]
  have h1 : String.mk p.1.data = p.1 := rfl
  have h2 : String.mk p.2.data = p.2 := rfl
  rw [h1, h2, formDecode_alnum p.1 (hps p hp).1, formDecode_alnum p.2 (hps p hp).2]

theorem joinSep_tokens_ne_nil (p : String × String) (rest : List (String × String)) :
    joinSep '&' ((p :: rest).map fun q => q.1.data ++ '=' :: q.2.data) ≠ [] := by
  cases rest with
  | nil =>
    show p.1.data ++ '=' :: p.2.data ≠ []
    exact token_ne_nil p
  | cons q rest2 =>
    show (p.1.data ++ '=' :: p.2.data) ++ _ ≠ []
    intro h
    exact token_ne_nil p (List.append_eq_nil.mp h).1

theorem jsStartsWith_mk_q (qchars : List Char) (h : '?' ∉ qchars) :
    jsStartsWith (String.mk qchars) "?" = false := by
  unfold jsStartsWith
  cases qchars with
  | nil => rfl
  | cons c rest =>
    show (['?'].isPrefixOf (c :: rest)) = false
    have hc : c ≠ '?' := fun e => h (e ▸ List.mem_cons_self c rest)
    simp [List.isPrefixOf, Ne.symm hc]

theorem recordSet_append (acc : List (String × String)) (k v : String)
    (h : k ∉ acc.map Prod.fst) : recordSet acc k v = acc ++ [(k, v)] := by
  induction acc with
  | nil => rfl
  | cons kv rest ih =>
    cases kv with
    | mk a b =>
      have ha : a ≠ k := fun e => h (by rw [List.map_cons, e]; exact List.mem_cons_self k _)
      rw [recordSet, if_neg ha, ih (fun m => h (by rw [List.map_cons]; exact List.mem_cons_of_mem a m))]
      rfl

theorem buildRecord_nodup (ps : List (String × String)) :
    ∀ (acc : List (String × String)), (ps.map Prod.fst).Nodup →
      (∀ p ∈ ps, p.1 ∉ acc.map Prod.fst) →
      ps.foldl (fun params p => recordSet params p.1 p.2) acc = acc ++ ps := by
  induction ps with
  | nil => intro acc _ _; simp
  | cons p rest ih =>
    intro acc hnd hdisj
    rw [List.foldl_cons, recordSet_append acc p.1 p.2 (hdisj p (List.mem_cons_self p rest))]
    rw [ih (acc ++ [(p.1, p.2)]) (by
        rw [List.map_cons] at hnd
        exact (List.nodup_cons.mp hnd).2)
      (by
        intro q hq hmem
        rw [List.map_append] at hmem
        rcases List.mem_append.mp hmem with h | h
        · exact hdisj q (List.mem_cons_of_mem p hq) h
        · rw [List.map_cons] at hnd
          have hqp : q.1 = p.1 := by simpa using h
          have : p.1 ∈ rest.map Prod.fst := hqp ▸ List.mem_map_of_mem Prod.fst hq
          exact (List.nodup_cons.mp hnd).1 this)]
    simp

theorem jsNewURL_render (segs : List (List Char)) (ps : List (String × String))
    (hsegs : ∀ s ∈ segs, s ≠ [] ∧ ∀ c ∈ s, c.isAlphanum = true)
    (hps : ∀ p ∈ ps, (∀ c ∈ p.1.data, c.isAlphanum = true) ∧
      (∀ c ∈ p.2.data, c.isAlphanum = true)) :
    jsNewURL (renderRel segs ps) = some
      { host := "localhost",
        pathname := String.mk ('/' :: joinSep '/' segs),
        query := if ps = [] then none
                 else some (String.mk (joinSep '&'
                   (ps.map fun p => p.1.data ++ '=' :: p.2.data))) } := by
  unfold jsNewURL
  rw [jsStartsWith_render_http]
  exact parseRelative_render segs ps hsegs hps

theorem parseForm_empty : parseForm "" = [] := rfl

theorem parseForm_search_render (ps : List (String × String))
    (hps : ∀ p ∈ ps, (∀ c ∈ p.1.data, c.isAlphanum = true) ∧
      (∀ c ∈ p.2.data, c.isAlphanum = true)) :
    parseForm (UrlObj.search
      { host := "localhost", pathname := "x",
        query := if ps = [] then none
                 else some (String.mk (joinSep '&'
                   (ps.map fun p => p.1.data ++ '=' :: p.2.data))) }) = ps := by
  by_cases hne : ps = []
  · subst hne
    rfl
  · rcases ps with _ | ⟨p, rest⟩
    · exact absurd rfl hne
    rw [show UrlObj.search _ = "?" ++ String.mk (joinSep '&'
        ((p :: rest).map fun q => q.1.data ++ '=' :: q.2.data)) from by
      unfold UrlObj.search
      rw [if_neg hne]
      dsimp only
      rw [if_neg (by
        intro he
        exact joinSep_tokens_ne_nil p rest (by
          have := congrArg String.data he
          simpa using this))]]
    unfold parseForm
    rw [show jsStartsWith ("?" ++ String.mk (joinSep '&'
        ((p :: rest).map fun q => q.1.data ++ '=' :: q.2.data))) "?" = true from by
      unfold jsStartsWith
      show (['?'].isPrefixOf ('?' :: _)) = true
      simp [List.isPrefixOf]]
    dsimp only
    rw [show ("?" ++ String.mk (joinSep '&'
        ((p :: rest).map fun q => q.1.data ++ '=' :: q.2.data))).data.drop 1 =
      joinSep '&' ((p :: rest).map fun q => q.1.data ++ '=' :: q.2.data) from rfl]
    exact parse_tokens (p :: rest) hps hne

theorem extractQueryParams_render (segs : List (List Char)) (ps : List (String × String))
    (hsegs : ∀ s ∈ segs, s ≠ [] ∧ ∀ c ∈ s, c.isAlphanum = true)
    (hps : ∀ p ∈ ps, (∀ c ∈ p.1.data, c.isAlphanum = true) ∧
      (∀ c ∈ p.2.data, c.isAlphanum = true))
    (hnd : (ps.map Prod.fst).Nodup) :
    extractQueryParams (renderRel segs ps) = ps := by
  unfold extractQueryParams
  rw [jsNewURL_render segs ps hsegs hps]
  unfold UrlObj.searchParams
  by_cases hne : ps = []
  · subst hne
    rfl
  · dsimp only
    rw [if_neg hne]
    dsimp only [Option.getD_some]
    have hq : parseForm (String.mk (joinSep '&'
        (ps.map fun p => p.1.data ++ '=' :: p.2.data))) = ps := by
      unfold parseForm
      rw [jsStartsWith_mk_q _ (by
        intro hmem
        rcases mem_queryChars hps hmem with h | h | h
        · exact absurd h (by decide)
        · exact absurd h (by decide)
        · exact absurd h (by decide))]
      dsimp only
      exact parse_tokens ps hps hne
    rw [hq]
    rw [buildRecord_nodup ps [] hnd (by intro p _ hm; simp at hm)]
    rfl

theorem extractPathname_render (segs : List (List Char)) (ps : List (String × String))
    (hsegs : ∀ s ∈ segs, s ≠ [] ∧ ∀ c ∈ s, c.isAlphanum = true)
    (hps : ∀ p ∈ ps, (∀ c ∈ p.1.data, c.isAlphanum = true) ∧
      (∀ c ∈ p.2.data, c.isAlphanum = true)) :
    extractPathname (renderRel segs ps) = String.mk ('/' :: joinSep '/' segs) := by
  unfold extractPathname
  rw [jsNewURL_render segs ps hsegs hps]

theorem normalizeUrl_render (segs : List (List Char)) (ps : List (String × String))
    (hsegs : ∀ s ∈ segs, s ≠ [] ∧ ∀ c ∈ s, c.isAlphanum = true)
    (hps : ∀ p ∈ ps, (∀ c ∈ p.1.data, c.isAlphanum = true) ∧
      (∀ c ∈ p.2.data, c.isAlphanum = true)) :
    normalizeUrl (renderRel segs ps) =
      String.mk ('/' :: joinSep '/' segs) ++
        (if serializeForm (jsSortEntries ps) ≠ "" then
          "?" ++ serializeForm (jsSortEntries ps) else "") := by
  unfold normalizeUrl
  rw [jsNewURL_render segs ps hsegs hps]
  dsimp only
  have hsearch : parseForm (UrlObj.search
      { host := "localhost", pathname := String.mk ('/' :: joinSep '/' segs),
        query := if ps = [] then none
                 else some (String.mk (joinSep '&'
                   (ps.map fun p => p.1.data ++ '=' :: p.2.data))) }) = ps := by
    have := parseForm_search_render ps hps
    rcases hq : (if ps = [] then none
                 else some (String.mk (joinSep '&'
                   (ps.map fun p => p.1.data ++ '=' :: p.2.data)))) with _ | q
    · rw [hq] at this ⊢
      exact this
    · rw [hq] at this ⊢
      exact this
  rw [hsearch]
  rw [jsStartsWith_render_http]
  rfl

theorem append_sep_inj {α : Type _} {sep : α} :
    ∀ {a c : List α} {b d : List α}, sep ∉ a → sep ∉ c →
      a ++ sep :: b = c ++ sep :: d → a = c ∧ b = d := by
  intro a
  induction a with
  | nil =>
    intro c b d _ hc he
    cases c with
    | nil => simpa using he
    | cons y cs =>
      rw [List.nil_append, List.cons_append] at he
      have := (List.cons.inj he).1
      exact absurd this.symm (fun e => hc (e ▸ List.mem_cons_self y cs))
  | cons x as ih =>
    intro c b d ha hc he
    cases c with
    | nil =>
      rw [List.nil_append, List.cons_append] at he
      have := (List.cons.inj he).1
      exact absurd this (fun e => ha (e ▸ List.mem_cons_self x as))
    | cons y cs =>
      rw [List.cons_append, List.cons_append] at he
      obtain ⟨h1, h2⟩ := List.cons.inj he
      have := ih (fun m => ha (List.mem_cons_of_mem x m))
        (fun m => hc (List.mem_cons_of_mem y m)) h2
      exact ⟨by rw [h1, this.1], this.2⟩

theorem entryKeyStr_data (p : String × String) :
    (entryKeyStr p).data = p.1.data ++ ',' :: p.2.data := by
  show (p.1.data ++ [',']) ++ p.2.data = p.1.data ++ ',' :: p.2.data
  rw [List.append_assoc]
  rfl

theorem entryLe_antisymm_of_alnum {ps : List (String × String)}
    (hps : ∀ p ∈ ps, (∀ c ∈ p.1.data, c.isAlphanum = true) ∧
      (∀ c ∈ p.2.data, c.isAlphanum = true)) :
    ∀ a ∈ ps, ∀ b ∈ ps, entryLe a b → entryLe b a → a = b := by
  intro a ha b hb h1 h2
  have hdata : (entryKeyStr a).data = (entryKeyStr b).data :=
    charListLe_antisymm _ _ h1 h2
  rw [entryKeyStr_data, entryKeyStr_data] at hdata
  have hsplit := append_sep_inj
    (fun m => absurd ((hps a ha).1 ',' m) (by decide))
    (fun m => absurd ((hps b hb).1 ',' m) (by decide)) hdata
  have e1 : a.1 = b.1 := by
    have := congrArg String.mk hsplit.1
    exact this
  have e2 : a.2 = b.2 := by
    have := congrArg String.mk hsplit.2
    exact this
  exact Prod.ext e1 e2

theorem map_ext_mem {α β : Type _} (l : List α) (f g : α → β)
    (h : ∀ a ∈ l, f a = g a) : l.map f = l.map g := by
  induction l with
  | nil => rfl
  | cons x rest ih =>
    rw [List.map_cons, List.map_cons, h x (List.mem_cons_self x rest),
      ih (fun a ha => h a (List.mem_cons_of_mem x ha))]

theorem recordGet_eq_none_iff (ps : List (String × String)) (k : String) :
    recordGet ps k = none ↔ k ∉ ps.map Prod.fst := by
  induction ps with
  | nil => simp [recordGet]
  | cons p rest ih =>
    cases p with
    | mk a b =>
      by_cases hak : a = k
      · subst hak
        simp [recordGet]
      · rw [recordGet, if_neg hak, List.map_cons]
        rw [ih]
        constructor
        · intro h hm
          rcases List.mem_cons.mp hm with hm1 | hm1
          · exact hak hm1.symm
          · exact h hm1
        · intro h hm
          exact h (List.mem_cons_of_mem _ hm)

theorem recordGet_mem {ps : List (String × String)} {k v : String}
    (h : recordGet ps k = some v) : (k, v) ∈ ps := by
  induction ps with
  | nil => simp [recordGet] at h
  | cons p rest ih =>
    cases p with
    | mk a b
    =>
      by_cases hak : a = k
      · subst hak
        rw [recordGet, if_pos rfl] at h
        exact (Option.some.inj h) ▸ List.mem_cons_self _ _
      · rw [recordGet, if_neg hak] at h
        exact List.mem_cons_of_mem _ (ih h)

theorem recordGet_of_mem {ps : List (String × String)} {k v : String}
    (hnd : (ps.map Prod.fst).Nodup) (hmem : (k, v) ∈ ps) : recordGet ps k = some v := by
  induction ps with
  | nil => simp at hmem
  | cons p rest ih =>
    cases p with
    | mk a b =>
      rcases List.mem_cons.mp hmem with h | h
      · obtain ⟨rfl, rfl⟩ := Prod.mk.inj h
        simp [recordGet]
      · have hak : a ≠ k := by
          intro he
          subst he
          rw [List.map_cons] at hnd
          have hmm : (a, v).1 ∈ rest.map Prod.fst := List.mem_map_of_mem Prod.fst h
          exact (List.nodup_cons.mp hnd).1 hmm
        show (if a = k then some b else recordGet rest k) = some v
        rw [if_neg hak]
        exact ih (by rw [List.map_cons] at hnd; exact (List.nodup_cons.mp hnd).2) h

theorem recordGet_perm {ps1 ps2 : List (String × String)} (hperm : ps1.Perm ps2)
    (hnd : (ps1.map Prod.fst).Nodup) (k : String) :
    recordGet ps1 k = recordGet ps2 k := by
  have hnd2 : (ps2.map Prod.fst).Nodup := ((hperm.map Prod.fst).nodup_iff).mp hnd
  cases h1 : recordGet ps1 k with
  | none =>
    symm
    rw [recordGet_eq_none_iff] at h1 ⊢
    intro hm
    exact h1 (((hperm.map Prod.fst).mem_iff).mpr hm)
  | some v =>
    symm
    exact recordGet_of_mem hnd2 (hperm.subset (recordGet_mem h1))

theorem generateMockFilename_congr (sig1 sig2 : RequestSignature)
    (hm : sig1.method = sig2.method) (hp : sig1.pathname = sig2.pathname)
    (hkeys : jsSortKeys (sig1.queryParams.map Prod.fst) =
      jsSortKeys (sig2.queryParams.map Prod.fst))
    (hget : ∀ k, recordGet sig1.queryParams k = recordGet sig2.queryParams k) :
    generateMockFilename sig1 = generateMockFilename sig2 := by
  unfold generateMockFilename
  rw [hm, hp, hkeys]
  rw [map_ext_mem (jsSortKeys (sig2.queryParams.map Prod.fst))
    (fun k => k.data ++ '=' :: ((recordGet sig1.queryParams k).getD "undefined").data)
    (fun k => k.data ++ '=' :: ((recordGet sig2.queryParams k).getD "undefined").data)
    (fun k _ => by simp only [hget k])]

/-- C3 amended: for relative URLs — rendered from nonempty alphanumeric path
segments and alphanumeric query pairs with pairwise-distinct names — two
orderings of the same query parameters yield the same `normalizedUrl` and a
byte-identical `generateMockFilename` storage key.  (The original claim
fails for absolute URLs, where the constructor's empty base throws and the
URL is returned unnormalized — see the counterexample — and the key
additionally needs distinct parameter names, since the query record keeps
only the last value of a repeated name.) -/
theorem c3_amended_query_order (method : String) (segs : List (List Char))
    (ps1 ps2 : List (String × String))
    (hsegs : ∀ s ∈ segs, s ≠ [] ∧ ∀ c ∈ s, c.isAlphanum = true)
    (hps : ∀ p ∈ ps1, (∀ c ∈ p.1.data, c.isAlphanum = true) ∧
      (∀ c ∈ p.2.data, c.isAlphanum = true))
    (hnd : (ps1.map Prod.fst).Nodup)
    (hperm : ps1.Perm ps2) :
    normalizeUrl (renderRel segs ps1) = normalizeUrl (renderRel segs ps2) ∧
    generateMockFilename (createRequestSignature method (renderRel segs ps1)) =
      generateMockFilename (createRequestSignature method (renderRel segs ps2)) := by
  have hps2 : ∀ p ∈ ps2, (∀ c ∈ p.1.data, c.isAlphanum = true) ∧
      (∀ c ∈ p.2.data, c.isAlphanum = true) :=
    fun p hp => hps p (hperm.mem_iff.mpr hp)
  have hnd2 : (ps2.map Prod.fst).Nodup := ((hperm.map Prod.fst).nodup_iff).mp hnd
  have hsort : jsSortEntries ps1 = jsSortEntries ps2 :=
    insertionSortPermEq entryLe hperm (entryLe_antisymm_of_alnum hps)
  constructor
  · rw [normalizeUrl_render segs ps1 hsegs hps, normalizeUrl_render segs ps2 hsegs hps2,
      hsort]
  · apply generateMockFilename_congr
    · rfl
    · show extractPathname (renderRel segs ps1) = extractPathname (renderRel segs ps2)
      rw [extractPathname_render segs ps1 hsegs hps, extractPathname_render segs ps2 hsegs hps2]
    · show jsSortKeys ((extractQueryParams (renderRel segs ps1)).map Prod.fst) =
        jsSortKeys ((extractQueryParams (renderRel segs ps2)).map Prod.fst)
      rw [extractQueryParams_render segs ps1 hsegs hps hnd,
        extractQueryParams_render segs ps2 hsegs hps2 hnd2]
      exact insertionSortPermEq strLe (hperm.map Prod.fst)
        (fun a _ b _ h1 h2 => by
          have hd : a.data = b.data := charListLe_antisymm a.data b.data h1 h2
          have := congrArg String.mk hd
          exact this)
    · intro k
      show recordGet (extractQueryParams (renderRel segs ps1)) k =
        recordGet (extractQueryParams (renderRel segs ps2)) k
      rw [extractQueryParams_render segs ps1 hsegs hps hnd,
        extractQueryParams_render segs ps2 hsegs hps2 hnd2]
      exact recordGet_perm hperm hnd k

/-- Witness for C3 (amended): the two orderings of `a=1`, `b=2` under the
path `/posts` normalize identically and produce the same storage filename. -/
theorem c3_witness :
    normalizeUrl (renderRel [['p', 'o', 's', 't', 's']] [("b", "2"), ("a", "1")]) =
      normalizeUrl (renderRel [['p', 'o', 's', 't', 's']] [("a", "1"), ("b", "2")]) ∧
    generateMockFilename (createRequestSignature "get"
        (renderRel [['p', 'o', 's', 't', 's']] [("b", "2"), ("a", "1")])) =
      generateMockFilename (createRequestSignature "get"
        (renderRel [['p', 'o', 's', 't', 's']] [("a", "1"), ("b", "2")])) :=
  c3_amended_query_order "get" [['p', 'o', 's', 't', 's']]
    [("b", "2"), ("a", "1")] [("a", "1"), ("b", "2")]
    (by decide) (by decide) (by decide) (by decide)

/-! ### C9: the placeholder pair is not symmetric; amended round-trip -/

/-- C9 counterexample: with the single pattern `field f`, `value "1"` and the
matching value map, the string `"1x1"` does not round-trip: `apply` replaces
*both* occurrences (global regex) but `resolve` — `String.prototype.replace`
with a string pattern — restores only the first. -/
theorem c9_counterexample :
    resolveDynamicPlaceholders defaultConfig [("f", "1")]
      (applyDynamicPlaceholders defaultConfig [("f", "1")] (.str "1x1")) ≠ .str "1x1" := by
  have he : resolveDynamicPlaceholders defaultConfig [("f", "1")]
      (applyDynamicPlaceholders defaultConfig [("f", "1")] (.str "1x1")) =
      .str "1x\x7b\x7bf\x7d\x7d" := rfl
  rw [he]
  intro h
  exact absurd (JsonVal.str.inj h) (by decide)

theorem dynToken_data (f : String) :
    (dynToken f).data = Char.ofNat 123 :: Char.ofNat 123 ::
      (f.data ++ [Char.ofNat 125, Char.ofNat 125]) := rfl

theorem dynToken_data_ne_nil (f : String) : (dynToken f).data ≠ [] := by
  rw [dynToken_data]
  simp

theorem getSubstitution_no_dollar (m pre post : List Char) :
    ∀ (tmpl : List Char), Char.ofNat 36 ∉ tmpl → getSubstitution m pre post tmpl = tmpl := by
  intro tmpl
  induction tmpl with
  | nil => intro h; rfl
  | cons c rest ih =>
    intro h
    have hc : ¬ (c = Char.ofNat 36) := fun hc => h (hc ▸ List.mem_cons_self c rest)
    cases rest with
    | nil => rfl
    | cons d rest2 =>
      rw [getSubstitution, if_neg hc]
      rw [ih (fun hm => h (List.mem_cons_of_mem c hm))]

theorem listReplaceFirst_self (pat rep : List Char) (hd : Char.ofNat 36 ∉ rep) :
    listReplaceFirst pat rep pat = rep := by
  cases pat with
  | nil =>
    show listReplaceFirstAux [] rep [] [] = rep
    rw [listReplaceFirstAux, if_pos (show ([] : List Char).isEmpty = true from rfl),
      List.reverse_nil]
    exact getSubstitution_no_dollar _ _ _ rep hd
  | cons c rest =>
    show listReplaceFirstAux (c :: rest) rep [] (c :: rest) = rep
    rw [listReplaceFirstAux, if_pos (by
      rw [List.isPrefixOf_iff_prefix])]
    rw [List.drop_length, List.append_nil, List.reverse_nil]
    exact getSubstitution_no_dollar _ _ _ rep hd

theorem listReplaceFirstAux_absent (pat rep : List Char) (hne : pat ≠ []) :
    ∀ (s acc : List Char), ¬ pat <:+: s → listReplaceFirstAux pat rep acc s = s := by
  intro s
  induction s with
  | nil =>
    intro acc h
    rw [listReplaceFirstAux, if_neg (by simpa [List.isEmpty_iff] using hne)]
  | cons c rest ih =>
    intro acc h
    rw [listReplaceFirstAux, if_neg (by
      rw [List.isPrefixOf_iff_prefix]
      intro hp
      exact h hp.isInfix)]
    rw [ih (c :: acc) (fun hi => h (List.infix_cons hi))]

theorem listReplaceFirst_absent (pat rep : List Char) (hne : pat ≠ []) :
    ∀ (s : List Char), ¬ pat <:+: s → listReplaceFirst pat rep s = s :=
  fun s h => listReplaceFirstAux_absent pat rep hne s [] h

theorem listReplaceAllGo_absent (pat rep : List Char) (hne : pat ≠ []) :
    ∀ (s acc : List Char), ¬ pat <:+: s → listReplaceAllGo pat rep s.length acc s = s := by
  intro s
  induction s with
  | nil =>
    intro acc h
    rw [List.length_nil, listReplaceAllGo, if_neg (by simpa [List.isEmpty_iff] using hne)]
  | cons c rest ih =>
    intro acc h
    rw [List.length_cons, listReplaceAllGo]
    rw [if_neg (by simpa [List.isEmpty_iff] using hne)]
    rw [if_neg (by
      rw [List.isPrefixOf_iff_prefix]
      intro hp
      exact h hp.isInfix)]
    rw [ih (c :: acc) (fun hi => h (List.infix_cons hi))]

theorem listReplaceAll_absent (pat rep s : List Char) (hne : pat ≠ [])
    (h : ¬ pat <:+: s) : listReplaceAll pat rep s = s :=
  listReplaceAllGo_absent pat rep hne s [] h

theorem listReplaceAll_self (pat rep : List Char) (hne : pat ≠ [])
    (hd : Char.ofNat 36 ∉ rep) :
    listReplaceAll pat rep pat = rep := by
  cases pat with
  | nil => exact absurd rfl hne
  | cons c rest =>
    show listReplaceAllGo (c :: rest) rep (c :: rest).length [] (c :: rest) = rep
    rw [List.length_cons, listReplaceAllGo]
    rw [if_neg (by simp [List.isEmpty_iff])]
    rw [if_pos (by
      rw [List.isPrefixOf_iff_prefix])]
    rw [List.drop_length]
    rw [show listReplaceAllGo (c :: rest) rep rest.length ((c :: rest).reverse ++ []) [] = []
      from by rw [listReplaceAllGo, if_neg (by simp [List.isEmpty_iff])]]
    rw [List.append_nil, List.reverse_nil]
    exact getSubstitution_no_dollar _ _ _ rep hd

theorem dynToken_no_dollar (f : String) (h : Char.ofNat 36 ∉ f.data) :
    Char.ofNat 36 ∉ (dynToken f).data := by
  intro hc
  rw [dynToken_data] at hc
  rcases List.mem_cons.mp hc with hc | hc
  · exact absurd hc (by decide)
  rcases List.mem_cons.mp hc with hc | hc
  · exact absurd hc (by decide)
  rcases List.mem_append.mp hc with hc | hc
  · exact h hc
  · exact absurd hc (by decide)

theorem applyDyn_str (config : MockConfig) (patterns : List (String × String)) (s : String) :
    applyDynamicPlaceholders config patterns (.str s) =
      .str (patterns.foldl (fun result p =>
        if jsIncludes s p.2 then jsReplaceAll result p.2 (dynToken p.1) else result) s) := rfl

theorem resolveDyn_str (config : MockConfig) (values : List (String × String)) (s : String) :
    resolveDynamicPlaceholders config values (.str s) =
      if s = config.dynamicPlaceholder then
        match recordGet values "_default" with
        | some v => .str v
        | none => .str s
      else
        .str (values.foldl (fun result kv =>
          jsReplaceFirst result (dynToken kv.1) kv.2) s) := rfl

theorem c9_applyFold_id (ps : List (String × String)) (s : String) (acc : String)
    (h : ∀ p ∈ ps, ¬ (p.2.data <:+: s.data)) :
    ps.foldl (fun result p =>
      if jsIncludes s p.2 then jsReplaceAll result p.2 (dynToken p.1) else result) acc = acc := by
  induction ps generalizing acc with
  | nil => rfl
  | cons p rest ih =>
    rw [List.foldl_cons,
      if_neg (by simpa [jsIncludes] using h p (List.mem_cons_self p rest))]
    exact ih acc (fun q hq => h q (List.mem_cons_of_mem p hq))

theorem c9_resolveFold_id (vs : List (String × String)) (acc : String)
    (h : ∀ kv ∈ vs, ¬ ((dynToken kv.1).data <:+: acc.data)) :
    vs.foldl (fun result kv => jsReplaceFirst result (dynToken kv.1) kv.2) acc = acc := by
  induction vs with
  | nil => rfl
  | cons kv rest ih =>
    rw [List.foldl_cons,
      show jsReplaceFirst acc (dynToken kv.1) kv.2 = acc from by
        rw [jsReplaceFirst, listReplaceFirst_absent _ _ (dynToken_data_ne_nil _) _
          (h kv (List.mem_cons_self kv rest))]]
    exact ih (fun q hq => h q (List.mem_cons_of_mem kv hq))

theorem c9_applyStr_hit (config : MockConfig) (pre post : List (String × String))
    (p₀ : String × String)
    (hne : p₀.2.data ≠ [])
    (hdf : Char.ofNat 36 ∉ (dynToken p₀.1).data)
    (hpre : ∀ p ∈ pre, ¬ (p.2.data <:+: p₀.2.data))
    (hpost : ∀ p ∈ post, ¬ (p.2.data <:+: p₀.2.data)) :
    applyDynamicPlaceholders config (pre ++ p₀ :: post) (.str p₀.2) = .str (dynToken p₀.1) := by
  rw [applyDyn_str]
  congr 1
  rw [List.foldl_append, c9_applyFold_id pre p₀.2 p₀.2 hpre, List.foldl_cons,
    if_pos (by simp [jsIncludes]),
    show jsReplaceAll p₀.2 p₀.2 (dynToken p₀.1) = dynToken p₀.1 from by
      rw [jsReplaceAll, listReplaceAll_self _ _ hne hdf]]
  exact c9_applyFold_id post p₀.2 (dynToken p₀.1) hpost

theorem c9_applyStr_miss (config : MockConfig) (patterns : List (String × String)) (s : String)
    (h : ∀ p ∈ patterns, ¬ (p.2.data <:+: s.data)) :
    applyDynamicPlaceholders config patterns (.str s) = .str s := by
  rw [applyDyn_str]
  congr 1
  exact c9_applyFold_id patterns s s h

theorem c9_resolveStr_token (config : MockConfig) (pre post : List (String × String))
    (p₀ : String × String)
    (hph : dynToken p₀.1 ≠ config.dynamicPlaceholder)
    (hdv : Char.ofNat 36 ∉ p₀.2.data)
    (hpre : ∀ p ∈ pre, ¬ ((dynToken p.1).data <:+: (dynToken p₀.1).data))
    (hpost : ∀ p ∈ post, ¬ ((dynToken p.1).data <:+: p₀.2.data)) :
    resolveDynamicPlaceholders config (pre ++ p₀ :: post) (.str (dynToken p₀.1)) = .str p₀.2 := by
  rw [resolveDyn_str, if_neg hph]
  congr 1
  rw [List.foldl_append, c9_resolveFold_id pre _ hpre, List.foldl_cons,
    show jsReplaceFirst (dynToken p₀.1) (dynToken p₀.1) p₀.2 = p₀.2 from by
      rw [jsReplaceFirst, listReplaceFirst_self _ _ hdv]]
  exact c9_resolveFold_id post _ hpost

theorem c9_resolveStr_clean (config : MockConfig) (values : List (String × String)) (s : String)
    (hns : s ≠ config.dynamicPlaceholder)
    (h : ∀ p ∈ values, ¬ ((dynToken p.1).data <:+: s.data)) :
    resolveDynamicPlaceholders config values (.str s) = .str s := by
  rw [resolveDyn_str, if_neg hns]
  congr 1
  exact c9_resolveFold_id values s h

theorem find?_recordGet (patterns : List (String × String)) (k : String) (p : String × String)
    (h : patterns.find? (fun q => q.1 = k) = some p) : recordGet patterns k = some p.2 := by
  induction patterns with
  | nil => simp [List.find?] at h
  | cons q rest ih =>
    by_cases hq : q.1 = k
    · rw [List.find?_cons_of_pos _ (by simpa using hq)] at h
      rw [recordGet, if_pos hq]
      rw [Option.some.inj h]
    · rw [List.find?_cons_of_neg _ (by simpa using hq)] at h
      rw [recordGet, if_neg hq]
      exact ih h

theorem c9_applyStr_spec (config : MockConfig) (patterns : List (String × String)) (s : String)
    (hval : ∀ p ∈ patterns, p.2.data ≠ [])
    (hnd : patterns.Nodup)
    (hsub : ∀ p ∈ patterns, ∀ q ∈ patterns, p ≠ q → ¬ (p.2.data <:+: q.2.data))
    (htok : ∀ p ∈ patterns, ∀ q ∈ patterns, p ≠ q → ¬ ((dynToken p.1).data <:+: (dynToken q.1).data))
    (htv : ∀ p ∈ patterns, ∀ q ∈ patterns, ¬ ((dynToken p.1).data <:+: q.2.data))
    (hph : ∀ p ∈ patterns, dynToken p.1 ≠ config.dynamicPlaceholder)
    (hdol : ∀ p ∈ patterns, Char.ofNat 36 ∉ p.1.data ∧ Char.ofNat 36 ∉ p.2.data)
    (hclean : cleanStrB config patterns s = true) :
    ∃ t : String, applyDynamicPlaceholders config patterns (.str s) = .str t ∧
      t ≠ config.dynamicPlaceholder ∧
      resolveDynamicPlaceholders config patterns (.str t) = .str s := by
  rw [cleanStrB, Bool.or_eq_true] at hclean
  rcases hclean with hhit | hmiss
  · rw [List.any_eq_true] at hhit
    obtain ⟨p₀, hp₀, hs⟩ := hhit
    have hs : s = p₀.2 := by simpa using hs
    obtain ⟨pre, post, hdec⟩ := List.append_of_mem hp₀
    have hnd' := hnd
    rw [hdec, List.nodup_append] at hnd'
    obtain ⟨hnpre, hncons, hdisj⟩ := hnd'
    have hp₀pre : p₀ ∉ pre := fun hm => hdisj hm (List.mem_cons_self _ _)
    have hp₀post : p₀ ∉ post := (List.nodup_cons.mp hncons).1
    have hmempre : ∀ p ∈ pre, p ∈ patterns := fun p hp => by
      rw [hdec]; exact List.mem_append_left _ hp
    have hmempost : ∀ p ∈ post, p ∈ patterns := fun p hp => by
      rw [hdec]; exact List.mem_append_right _ (List.mem_cons_of_mem _ hp)
    refine ⟨dynToken p₀.1, ?_, hph p₀ hp₀, ?_⟩
    · rw [hs, hdec]
      exact c9_applyStr_hit config pre post p₀ (hval p₀ hp₀)
        (dynToken_no_dollar p₀.1 (hdol p₀ hp₀).1)
        (fun p hp => hsub p (hmempre p hp) p₀ hp₀ (fun he => hp₀pre (he ▸ hp)))
        (fun p hp => hsub p (hmempost p hp) p₀ hp₀ (fun he => hp₀post (he ▸ hp)))
    · rw [hs, hdec]
      exact c9_resolveStr_token config pre post p₀ (hph p₀ hp₀) (hdol p₀ hp₀).2
        (fun p hp => htok p (hmempre p hp) p₀ hp₀ (fun he => hp₀pre (he ▸ hp)))
        (fun p hp => htv p (hmempost p hp) p₀ hp₀)
  · rw [Bool.and_eq_true] at hmiss
    obtain ⟨hall, hnotph⟩ := hmiss
    rw [List.all_eq_true] at hall
    have hnv : ∀ p ∈ patterns, ¬ (p.2.data <:+: s.data) := fun p hp => by
      have hb := hall p hp
      rw [Bool.and_eq_true] at hb
      simpa using hb.1
    have hnt : ∀ p ∈ patterns, ¬ ((dynToken p.1).data <:+: s.data) := fun p hp => by
      have hb := hall p hp
      rw [Bool.and_eq_true] at hb
      simpa using hb.2
    have hnsp : s ≠ config.dynamicPlaceholder := by simpa using hnotph
    exact ⟨s, c9_applyStr_miss config patterns s hnv, hnsp,
      c9_resolveStr_clean config patterns s hnsp hnt⟩

theorem resolveDynObj_strHead (config : MockConfig) (values : List (String × String))
    (k t : String) (rest : List (String × JsonVal)) :
    resolveDynObj config values ((k, JsonVal.str t) :: rest) =
      (k, if t = config.dynamicPlaceholder ∧ (recordGet values k).isSome then
            JsonVal.str ((recordGet values k).getD t)
          else resolveDynamicPlaceholders config values (JsonVal.str t)) ::
      resolveDynObj config values rest := rfl

theorem resolveDynObj_head_notStr (config : MockConfig) (values : List (String × String))
    (k : String) (v : JsonVal) (rest : List (String × JsonVal))
    (h : ∀ s, v ≠ JsonVal.str s) :
    resolveDynObj config values ((k, v) :: rest) =
      (k, resolveDynamicPlaceholders config values v) :: resolveDynObj config values rest := by
  cases v with
  | str s => exact absurd rfl (h s)
  | num m => rfl
  | bool b => rfl
  | null => rfl
  | arr xs => rfl
  | obj kvs => rfl

theorem applyStrEntry_none (config : MockConfig) (patterns : List (String × String))
    (k s : String) (hf : patterns.find? (fun p => p.1 = k) = none) :
    applyStrEntry config patterns k s =
      applyDynamicPlaceholders config patterns (JsonVal.str s) := by
  rw [applyStrEntry.eq_def, hf, applyDyn_str]

theorem applyStrEntry_some (config : MockConfig) (patterns : List (String × String))
    (k s : String) (p : String × String)
    (hf : patterns.find? (fun q => q.1 = k) = some p) :
    applyStrEntry config patterns k s =
      if s = p.2 then JsonVal.str config.dynamicPlaceholder
      else applyDynamicPlaceholders config patterns (JsonVal.str s) := by
  rw [applyStrEntry.eq_def, hf, applyDyn_str]

theorem applyDynObj_strHead (config : MockConfig) (patterns : List (String × String))
    (k s : String) (rest : List (String × JsonVal)) :
    applyDynObj config patterns ((k, JsonVal.str s) :: rest) =
      (k, applyStrEntry config patterns k s) :: applyDynObj config patterns rest := rfl

theorem applyDynObj_head_notStr (config : MockConfig) (patterns : List (String × String))
    (k : String) (v : JsonVal) (rest : List (String × JsonVal))
    (h : ∀ s, v ≠ JsonVal.str s) :
    applyDynObj config patterns ((k, v) :: rest) =
      (k, applyDynamicPlaceholders config patterns v) :: applyDynObj config patterns rest := by
  cases v with
  | str s => exact absurd rfl (h s)
  | num m => rfl
  | bool b => rfl
  | null => rfl
  | arr xs => rfl
  | obj kvs => rfl

theorem applyDyn_arr (config : MockConfig) (patterns : List (String × String))
    (xs : List JsonVal) :
    applyDynamicPlaceholders config patterns (.arr xs) = .arr (applyDynList config patterns xs) := rfl

theorem applyDyn_obj (config : MockConfig) (patterns : List (String × String))
    (kvs : List (String × JsonVal)) :
    applyDynamicPlaceholders config patterns (.obj kvs) = .obj (applyDynObj config patterns kvs) := rfl

theorem resolveDyn_arr (config : MockConfig) (values : List (String × String))
    (xs : List JsonVal) :
    resolveDynamicPlaceholders config values (.arr xs) =
      .arr (resolveDynList config values xs) := rfl

theorem resolveDyn_obj (config : MockConfig) (values : List (String × String))
    (kvs : List (String × JsonVal)) :
    resolveDynamicPlaceholders config values (.obj kvs) =
      .obj (resolveDynObj config values kvs) := rfl

theorem applyDynList_cons (config : MockConfig) (patterns : List (String × String))
    (x : JsonVal) (rest : List JsonVal) :
    applyDynList config patterns (x :: rest) =
      applyDynamicPlaceholders config patterns x :: applyDynList config patterns rest := rfl

theorem resolveDynList_cons (config : MockConfig) (values : List (String × String))
    (x : JsonVal) (rest : List JsonVal) :
    resolveDynList config values (x :: rest) =
      resolveDynamicPlaceholders config values x :: resolveDynList config values rest := rfl

theorem c9_objCons (config : MockConfig) (patterns : List (String × String))
    (k : String) (v : JsonVal) (rest : List (String × JsonVal))
    (hval : ∀ p ∈ patterns, p.2.data ≠ [])
    (hnd : patterns.Nodup)
    (hsub : ∀ p ∈ patterns, ∀ q ∈ patterns, p ≠ q → ¬ (p.2.data <:+: q.2.data))
    (htok : ∀ p ∈ patterns, ∀ q ∈ patterns, p ≠ q → ¬ ((dynToken p.1).data <:+: (dynToken q.1).data))
    (htv : ∀ p ∈ patterns, ∀ q ∈ patterns, ¬ ((dynToken p.1).data <:+: q.2.data))
    (hph : ∀ p ∈ patterns, dynToken p.1 ≠ config.dynamicPlaceholder)
    (hdol : ∀ p ∈ patterns, Char.ofNat 36 ∉ p.1.data ∧ Char.ofNat 36 ∉ p.2.data)
    (hcv : cleanV config patterns v = true)
    (hv : resolveDynamicPlaceholders config patterns
      (applyDynamicPlaceholders config patterns v) = v)
    (hrest : resolveDynObj config patterns (applyDynObj config patterns rest) = rest) :
    resolveDynObj config patterns (applyDynObj config patterns ((k, v) :: rest)) =
      (k, v) :: rest := by
  cases v with
  | str s =>
    obtain ⟨t, hat, htp, hrt⟩ :=
      c9_applyStr_spec config patterns s hval hnd hsub htok htv hph hdol hcv
    rcases hf : patterns.find? (fun q => q.1 = k) with _ | p
    · rw [applyDynObj_strHead, applyStrEntry_none config patterns k s hf, hat,
        resolveDynObj_strHead, if_neg (fun hc => htp hc.1), hrt, hrest]
    · by_cases hsp : s = p.2
      · have hrg : recordGet patterns k = some p.2 := find?_recordGet patterns k p hf
        rw [applyDynObj_strHead, applyStrEntry_some config patterns k s p hf, if_pos hsp,
          resolveDynObj_strHead, if_pos ⟨rfl, by rw [hrg]; rfl⟩, hrg, Option.getD_some, hsp, hrest]
      · rw [applyDynObj_strHead, applyStrEntry_some config patterns k s p hf, if_neg hsp, hat,
          resolveDynObj_strHead, if_neg (fun hc => htp hc.1), hrt, hrest]
  | num m =>
    rw [applyDynObj_head_notStr config patterns k _ _ (fun s h => JsonVal.noConfusion h),
      resolveDynObj_head_notStr config patterns k _ _ (fun s h => JsonVal.noConfusion h), hv, hrest]
  | bool b =>
    rw [applyDynObj_head_notStr config patterns k _ _ (fun s h => JsonVal.noConfusion h),
      resolveDynObj_head_notStr config patterns k _ _ (fun s h => JsonVal.noConfusion h), hv, hrest]
  | null =>
    rw [applyDynObj_head_notStr config patterns k _ _ (fun s h => JsonVal.noConfusion h),
      resolveDynObj_head_notStr config patterns k _ _ (fun s h => JsonVal.noConfusion h), hv, hrest]
  | arr xs =>
    rw [applyDynObj_head_notStr config patterns k _ _ (fun s h => JsonVal.noConfusion h),
      resolveDynObj_head_notStr config patterns k _ _ (fun s h => JsonVal.noConfusion h), hv, hrest]
  | obj kvs =>
    rw [applyDynObj_head_notStr config patterns k _ _ (fun s h => JsonVal.noConfusion h),
      resolveDynObj_head_notStr config patterns k _ _ (fun s h => JsonVal.noConfusion h), hv, hrest]

theorem c9_roundtrip_aux (config : MockConfig) (patterns : List (String × String))
    (hval : ∀ p ∈ patterns, p.2.data ≠ [])
    (hnd : patterns.Nodup)
    (hsub : ∀ p ∈ patterns, ∀ q ∈ patterns, p ≠ q → ¬ (p.2.data <:+: q.2.data))
    (htok : ∀ p ∈ patterns, ∀ q ∈ patterns, p ≠ q → ¬ ((dynToken p.1).data <:+: (dynToken q.1).data))
    (htv : ∀ p ∈ patterns, ∀ q ∈ patterns, ¬ ((dynToken p.1).data <:+: q.2.data))
    (hph : ∀ p ∈ patterns, dynToken p.1 ≠ config.dynamicPlaceholder)
    (hdol : ∀ p ∈ patterns, Char.ofNat 36 ∉ p.1.data ∧ Char.ofNat 36 ∉ p.2.data) :
    ∀ (n : Nat) (d : JsonVal), sizeOf d < n → cleanV config patterns d = true →
      resolveDynamicPlaceholders config patterns
        (applyDynamicPlaceholders config patterns d) = d := by
  intro n
  induction n with
  | zero => exact fun d h _ => absurd h (Nat.not_lt_zero _)
  | succ n ih =>
    intro d hsize hclean
    cases d with
    | null => rfl
    | num m => rfl
    | bool b => rfl
    | str s =>
      obtain ⟨t, hat, _, hrt⟩ :=
        c9_applyStr_spec config patterns s hval hnd hsub htok htv hph hdol hclean
      rw [hat, hrt]
    | arr xs =>
      cases xs with
      | nil => rfl
      | cons x rest =>
        rw [cleanV, cleanL, Bool.and_eq_true] at hclean
        obtain ⟨hcx, hcr⟩ := hclean
        have hsx : sizeOf x < n := by
          simp only [JsonVal.arr.sizeOf_spec, List.cons.sizeOf_spec] at hsize
          omega
        have hsr : sizeOf (JsonVal.arr rest) < n := by
          simp only [JsonVal.arr.sizeOf_spec, List.cons.sizeOf_spec] at hsize ⊢
          omega
        have hx := ih x hsx hcx
        have hr := ih (.arr rest) hsr (by rw [cleanV]; exact hcr)
        rw [applyDyn_arr, resolveDyn_arr] at hr
        rw [applyDyn_arr, applyDynList_cons, resolveDyn_arr, resolveDynList_cons, hx,
          JsonVal.arr.inj hr]
    | obj kvs =>
      cases kvs with
      | nil => rfl
      | cons kv rest =>
        obtain ⟨k, v⟩ := kv
        rw [cleanV, cleanO, Bool.and_eq_true] at hclean
        obtain ⟨hcv, hcr⟩ := hclean
        have hsv : sizeOf v < n := by
          simp only [JsonVal.obj.sizeOf_spec, List.cons.sizeOf_spec,
            Prod.mk.sizeOf_spec] at hsize
          omega
        have hsr : sizeOf (JsonVal.obj rest) < n := by
          simp only [JsonVal.obj.sizeOf_spec, List.cons.sizeOf_spec,
            Prod.mk.sizeOf_spec] at hsize ⊢
          omega
        have hvv := ih v hsv hcv
        have hr := ih (.obj rest) hsr (by rw [cleanV]; exact hcr)
        rw [applyDyn_obj, resolveDyn_obj] at hr
        rw [applyDyn_obj, resolveDyn_obj,
          c9_objCons config patterns k v rest hval hnd hsub htok htv hph hdol hcv hvv
            (JsonVal.obj.inj hr)]

/-- C9 (amended): `applyDynamicPlaceholders` / `resolveDynamicPlaceholders`
are a symmetric pair on the fragment where neither first-occurrence
replacement nor `GetSubstitution` `$`-escapes can be observed: when the
value map binds exactly the tracked fields to their tracked values
(distinct patterns, nonempty values, no tracked value contained in another,
no token contained in another token or in a value, no token equal to the
sentinel, no `$` — U+0024 — in any tracked field or value, so the escape
sequences `$$`, `$&`, `$`+U+0060, `$`+U+0027 that `String.prototype.replace`
expands in its replacement cannot arise), and every string atom of `d`
either equals one tracked value exactly or contains no tracked value and no
token and is not the sentinel, then resolving the applied value restores
`d` exactly — object fields replaced by the sentinel are resolved back
through the value map, and replaced string occurrences are substituted
back.  (As claimed — for every JSON-like `d` — the round trip fails: see
the counterexample, a string containing a tracked value twice, where apply
replaces every occurrence via a global regex but resolve, using
`String.prototype.replace` with a string pattern, restores only the
first.) -/
theorem c9_amended_roundtrip (config : MockConfig) (patterns : List (String × String))
    (d : JsonVal)
    (hval : ∀ p ∈ patterns, p.2.data ≠ [])
    (hnd : patterns.Nodup)
    (hsub : ∀ p ∈ patterns, ∀ q ∈ patterns, p ≠ q → ¬ (p.2.data <:+: q.2.data))
    (htok : ∀ p ∈ patterns, ∀ q ∈ patterns, p ≠ q → ¬ ((dynToken p.1).data <:+: (dynToken q.1).data))
    (htv : ∀ p ∈ patterns, ∀ q ∈ patterns, ¬ ((dynToken p.1).data <:+: q.2.data))
    (hph : ∀ p ∈ patterns, dynToken p.1 ≠ config.dynamicPlaceholder)
    (hdol : ∀ p ∈ patterns, Char.ofNat 36 ∉ p.1.data ∧ Char.ofNat 36 ∉ p.2.data)
    (hclean : cleanV config patterns d = true) :
    resolveDynamicPlaceholders config patterns
      (applyDynamicPlaceholders config patterns d) = d :=
  c9_roundtrip_aux config patterns hval hnd hsub htok htv hph hdol
    (sizeOf d + 1) d (Nat.lt_succ_self _) hclean

/-- Witness for C9 (amended): two tracked patterns and a mixed object —
a sentinel-replaced field, a token-replaced array element, untouched
atoms — round-trip exactly. -/
theorem c9_witness :
    ((∀ p ∈ ([("id", "12345"), ("token", "abcdef")] : List (String × String)),
        p.2.data ≠ []) ∧
      ([("id", "12345"), ("token", "abcdef")] : List (String × String)).Nodup ∧
      (∀ p ∈ ([("id", "12345"), ("token", "abcdef")] : List (String × String)),
        ∀ q ∈ ([("id", "12345"), ("token", "abcdef")] : List (String × String)),
        p ≠ q → ¬ (p.2.data <:+: q.2.data)) ∧
      (∀ p ∈ ([("id", "12345"), ("token", "abcdef")] : List (String × String)),
        ∀ q ∈ ([("id", "12345"), ("token", "abcdef")] : List (String × String)),
        p ≠ q → ¬ ((dynToken p.1).data <:+: (dynToken q.1).data)) ∧
      (∀ p ∈ ([("id", "12345"), ("token", "abcdef")] : List (String × String)),
        ∀ q ∈ ([("id", "12345"), ("token", "abcdef")] : List (String × String)),
        ¬ ((dynToken p.1).data <:+: q.2.data)) ∧
      (∀ p ∈ ([("id", "12345"), ("token", "abcdef")] : List (String × String)),
        dynToken p.1 ≠ defaultConfig.dynamicPlaceholder) ∧
      (∀ p ∈ ([("id", "12345"), ("token", "abcdef")] : List (String × String)),
        Char.ofNat 36 ∉ p.1.data ∧ Char.ofNat 36 ∉ p.2.data) ∧
      cleanV defaultConfig [("id", "12345"), ("token", "abcdef")]
        (.obj [("id", .str "12345"), ("note", .str "hello world"),
          ("items", .arr [.str "abcdef", .num 7, .bool true]),
          ("flag", .null)]) = true) ∧
    resolveDynamicPlaceholders defaultConfig [("id", "12345"), ("token", "abcdef")]
      (applyDynamicPlaceholders defaultConfig [("id", "12345"), ("token", "abcdef")]
        (.obj [("id", .str "12345"), ("note", .str "hello world"),
          ("items", .arr [.str "abcdef", .num 7, .bool true]),
          ("flag", .null)])) =
      .obj [("id", .str "12345"), ("note", .str "hello world"),
        ("items", .arr [.str "abcdef", .num 7, .bool true]),
        ("flag", .null)] :=
  ⟨⟨by decide, by decide, by decide, by decide, by decide, by decide, by decide, by decide⟩,
    c9_amended_roundtrip defaultConfig [("id", "12345"), ("token", "abcdef")]
      (.obj [("id", .str "12345"), ("note", .str "hello world"),
        ("items", .arr [.str "abcdef", .num 7, .bool true]),
        ("flag", .null)])
      (by decide) (by decide) (by decide) (by decide) (by decide) (by decide) (by decide)
      (by decide)⟩
